import Mathlib

/-!
# Verification of the MinSFI `SandboxMemoryAccesses` pass

Shallow embedding of `lib/Transforms/MinSFI/SandboxMemoryAccesses.cpp`.
LLVM IR is modelled structurally: a type grammar, typed values, instructions
with an opcode kind and an ordered operand list, basic blocks as instruction
lists.  The pass itself (`runOnModule` / `runOnFunction` /
`sandboxPtrOperand` / `sandboxLenOperand` / `checkDoesNotHavePointerOperands`)
is translated statement by statement.  In-place mutation of the C++ pass is
rendered as explicit state passing over a zipper (`Work`) holding the already
processed blocks, the processed portion of the current block, the instruction
under the cursor, and the unprocessed remainder.  Machine arithmetic of the
synthesized instructions is given by a small evaluator (`evalInstr` /
`evalChain`) using `Nat` with explicit `% 2 ^ w` reductions.
-/

namespace MinSFI

/-- LLVM types, restricted to what the pass manipulates: integer types of a
given bit width, pointer types with a pointee type, and void. -/
inductive Ty where
  | int (w : Nat)
  | ptr (pointee : Ty)
  | void
  deriving DecidableEq, Repr

/-- `Type::isPointerTy()`. -/
def Ty.isPointerTy : Ty → Bool
  | .ptr _ => true
  | _ => false

/-- `Type::getPointerElementType()` (identity on non-pointers; the source
only calls it on pointer types). -/
def Ty.pointerElementType : Ty → Ty
  | .ptr t => t
  | t => t

/-- Bit width used by the evaluator: integers carry their declared width;
pointers are evaluated at the full 64-bit address width the pass computes
with (the header notes all generated pointer arithmetic uses i64). -/
def Ty.bitWidth : Ty → Nat
  | .int w => w
  | .ptr _ => 64
  | .void => 0

/-- `DataLayout::getTypeStoreSize`, following LLVM's definition
(bytes needed to store the type, `ceil(bits/8)`); pointers take 4 bytes on
the 32-bit le32 layout the MinSFI pipeline targets. -/
def typeStoreSize : Ty → Nat
  | .int w => (w + 7) / 8
  | .ptr _ => 4
  | .void => 0

/-- SSA values: integer constants (unsigned bit pattern `v`, width `w`),
function arguments, references to the result of another instruction
(identified by a numeric id, standing for C++ object identity), and
references to global variables. Every value carries its type, as LLVM
`Value`s do. -/
inductive Value where
  | constInt (w : Nat) (v : Nat)
  | arg (n : Nat) (ty : Ty)
  | instRef (id : Nat) (ty : Ty)
  | globalRef (name : String) (ty : Ty)
  deriving DecidableEq, Repr

/-- `Value::getType()`. -/
def Value.ty : Value → Ty
  | .constInt w _ => .int w
  | .arg _ t => t
  | .instRef _ t => t
  | .globalRef _ t => t

/-- `ConstantInt::getSExtValue()`: reinterpret the unsigned bit pattern
`bits` of a width-`w` constant as a signed integer. -/
def constSExt (w : Nat) (bits : Nat) : Int :=
  if bits < 2 ^ (w - 1) then (bits : Int) else (bits : Int) - 2 ^ w

/-- The intrinsic ids the function driver dispatches on; every other
intrinsic is `otherIntrinsic`. -/
inductive IntrinsicID where
  | naclAtomicLoad
  | naclAtomicStore
  | naclAtomicRmw
  | naclAtomicCmpxchg
  | naclAtomicIsLockFree
  | otherIntrinsic (n : Nat)
  deriving DecidableEq, Repr

/-- Instruction opcode classes relevant to the pass.  `memcpy`, `memmove`,
`memset` and `intrinsic` are call-like (they are `CallInst`s in LLVM);
`call` is a non-intrinsic call; `other` stands for any remaining opcode. -/
inductive InstKind where
  | load
  | store
  | memcpy
  | memmove
  | memset
  | intrinsic (iid : IntrinsicID)
  | ptrtoint
  | inttoptr
  | bitcast
  | zext
  | add
  | and
  | call
  | other (opcode : Nat)
  deriving DecidableEq, Repr

/-- An instruction: an id (standing for C++ object identity), an opcode
kind, the ordered operand list (for call-like instructions the arguments
followed by the callee operand, mirroring LLVM's operand layout), the result
type, and an optional debug location. -/
structure Instr where
  id : Nat
  kind : InstKind
  ops : List Value
  ty : Ty
  dbg : Option Nat := none
  deriving DecidableEq, Repr

/-- `Instruction::getOperand(i)`. -/
def Instr.getOperand (inst : Instr) (i : Nat) : Value :=
  inst.ops.getD i (Value.constInt 0 0)

/-- `User::setOperand(i, v)`. -/
def Instr.setOperand (inst : Instr) (i : Nat) (v : Value) : Instr :=
  { inst with ops := inst.ops.set i v }

/-- The SSA value produced by an instruction. -/
def Instr.value (inst : Instr) : Value :=
  Value.instRef inst.id inst.ty

/-- A basic block is an ordered instruction sequence. -/
abbrev Block := List Instr

/-- `ExternalSymName_MemoryBase`. -/
def memBaseName : String := "__sfi_memory_base"

/-- `ExternalSymName_PointerSize`. -/
def pointerSizeName : String := "__sfi_pointer_size"

/-- The fixed diagnostic string passed to `report_fatal_error`. -/
def fatalMessage : String :=
  "SandboxMemoryAccesses: unexpected instruction with pointer-type operands"

/-- Module initializer, mask part: `if (PointerSize < 32) PtrMask =
ConstantInt::get(I32, (1U << PointerSize) - 1);` — for pointer width `W`
smaller than 32 a 32-bit mask constant is produced, otherwise none. -/
def ptrMask (W : Nat) : Option Nat :=
  if W < 32 then some ((1 <<< W) - 1) else none

/-- The exported `__sfi_pointer_size` constant created by `runOnModule`. -/
def pointerSizeConst (W : Nat) : Value :=
  Value.constInt 32 W

/-- Modelled from the spec: `minsfi::GetAddressSubspaceSize()` lives outside
this repository's sources; the spec fixes the address subspace reachable
from the sandbox base to the `2^W`-sized range given the configured pointer
width `W`. -/
def addressSubspaceSize (W : Nat) : Nat :=
  2 ^ W

/-- Is the instruction a `CallInst` (`dyn_cast<CallInst>` succeeds)?  In
LLVM the memory intrinsics and all other intrinsic calls are `CallInst`s. -/
def isCallInst (inst : Instr) : Bool :=
  match inst.kind with
  | .call | .intrinsic _ | .memcpy | .memmove | .memset => true
  | _ => false

/-- `CallInst::getArgOperand` range: the operands minus the trailing callee
operand. -/
def argOperands (inst : Instr) : List Value :=
  inst.ops.dropLast

/-- `checkDoesNotHavePointerOperands`, as the decision whether
`report_fatal_error` fires: call instructions contribute only their
argument operands (the callee-target operand is exempt, its integrity being
guaranteed by CFI); every other instruction contributes all operands. -/
def checkDoesNotHavePointerOperands (inst : Instr) : Bool :=
  if isCallInst inst then
    (argOperands inst).any (fun v => v.ty.isPointerTy)
  else
    inst.ops.any (fun v => v.ty.isPointerTy)

/-- Processing state inside `runOnFunction`, as a zipper over the function
being mutated in place: fully processed blocks, the processed portion of
the current block (which receives the instructions inserted before the
cursor), the instruction under the cursor, the unprocessed remainder of the
current block, the unprocessed blocks, the per-function memory-base cache
(`Value *MemBase`), and a fresh-id supply for newly created instructions.
The memory-base load is kept in the cache field and prepended to the entry
block when the function is finished, which is observationally equivalent to
the source's immediate `push_front` (no later step inspects the entry
block's head). -/
structure Work where
  doneBlocks : List Block
  doneCur : Block
  cur : Instr
  suffix : List Instr
  restBlocks : List Block
  memBase : Option Instr
  fresh : Nat
  deriving DecidableEq, Repr

/-- All instructions of the function in program order (the cursor included),
the view `use_empty` and operand chasing work on. -/
def allInstrs (w : Work) : List Instr :=
  w.doneBlocks.flatten ++ w.doneCur ++ [w.cur] ++ w.suffix ++ w.restBlocks.flatten

/-- Resolve an instruction reference to its defining instruction (C++
pointer dereference). -/
def findDef (w : Work) (i : Nat) : Option Instr :=
  (allInstrs w).find? (fun inst => inst.id = i)

/-- Does the value reference the result of instruction `i`? -/
def Value.refsId (v : Value) (i : Nat) : Bool :=
  match v with
  | .instRef j _ => j = i
  | _ => false

/-- Does any instruction of the function use the result of instruction `i`
(negation of `Value::use_empty`)? -/
def usedBy (w : Work) (i : Nat) : Bool :=
  (allInstrs w).any (fun inst => inst.ops.any (fun v => v.refsId i))

/-- `Instruction::eraseFromParent()`: remove the instruction with id `i`
from every block list (ids stand for object identity, so exactly the erased
instruction disappears). -/
def eraseInstr (w : Work) (i : Nat) : Work :=
  { w with
    doneBlocks := w.doneBlocks.map (fun b => b.filter (fun inst => inst.id ≠ i)),
    doneCur := w.doneCur.filter (fun inst => inst.id ≠ i),
    suffix := w.suffix.filter (fun inst => inst.id ≠ i),
    restBlocks := w.restBlocks.map (fun b => b.filter (fun inst => inst.id ≠ i)) }

/-- `CopyDebug(New, Old)`: overwrite the debug location of the instruction
with id `i` (a newly inserted instruction, hence in `doneCur`). -/
def copyDebugAt (w : Work) (i : Nat) (d : Option Nat) : Work :=
  { w with
    doneCur := w.doneCur.map (fun inst =>
      if inst.id = i then { inst with dbg := d } else inst) }

/-- Information recorded when the `ExpandGetElementPtr` pattern is
recognized (`Truncated`, `Offset`, `RedundantCast`, `RedundantAdd`). -/
structure FoldInfo where
  truncated : Value
  offset : Int
  redundantCast : Instr
  redundantAdd : Instr
  deriving DecidableEq, Repr

/-- The pattern recognition of `sandboxPtrOperand` (source lines 164-188):
for a first-class value access whose pointer operand is an `inttoptr`
instruction whose integer operand is an `add` instruction of type `i32`
whose second operand is an integer constant, compute
`MaxOffset = GetAddressSubspaceSize() - getTypeStoreSize(ValType)` and
`Offset = CI->getSExtValue()`; the optimized path fires iff
`Offset >= 0 && Offset <= MaxOffset`. -/
def recognizeFolded (W : Nat) (w : Work) (ptr : Value) (isFCVA : Bool) :
    Option FoldInfo :=
  if !isFCVA then none else
  match ptr with
  | .instRef cid _ =>
    match findDef w cid with
    | some cast =>
      if cast.kind = InstKind.inttoptr then
        match cast.getOperand 0 with
        | .instRef aid _ =>
          match findDef w aid with
          | some op =>
            if op.kind = InstKind.add ∧ op.ty = Ty.int 32 then
              match op.getOperand 1 with
              | .constInt cw cbits =>
                let valType := (ptr.ty).pointerElementType
                let maxOffset : Int :=
                  (addressSubspaceSize W : Int) - (typeStoreSize valType : Int)
                let offset : Int := constSExt cw cbits
                if 0 ≤ offset ∧ offset ≤ maxOffset then
                  some ⟨op.getOperand 0, offset, cast, op⟩
                else none
              | _ => none
            else none
          | none => none
        | _ => none
      else none
    | none => none
  | _ => none

/-- First step of `sandboxPtrOperand` (source lines 137-141): if the
function has no cached memory-base value yet, synthesize
`LoadInst(MemBaseVar, "mem_base")` (kept in the cache field and prepended
to the entry block when the function is finished). -/
def memBaseLoad (i : Nat) : Instr :=
  { id := i, kind := InstKind.load,
    ops := [Value.globalRef memBaseName (Ty.ptr (Ty.int 64))],
    ty := Ty.int 64 }

/-- See the doc comment above `memBaseLoad` for the load itself; this is
the lazy-cache step around it. -/
def acquireMemBase (w : Work) : Work × Instr :=
  match w.memBase with
  | some mb => (w, mb)
  | none =>
      ({ w with memBase := some (memBaseLoad w.fresh), fresh := w.fresh + 1 },
       memBaseLoad w.fresh)

/-- The instruction-building part of `sandboxPtrOperand` (source lines
190-211): on the general path a `ptrtoint` to i32; in either case an `and`
with the mask when one is configured; then `zext` to i64, `add` of the
memory base, on the optimized path a further `add` of the offset constant
(extended to i64), and the final `inttoptr` back to the original pointer
type.  Returns the inserted instructions in order, the `AddOffset`
instruction, the `SandboxedPtr` instruction, and the next fresh id. -/
def buildSandboxInsts (W : Nat) (memBase : Instr) (ptr : Value)
    (fold : Option FoldInfo) (fresh : Nat) :
    List Instr × Instr × Instr × Nat :=
  let (truncated, insts₁, fr₁) :=
    match fold with
    | some info => (info.truncated, ([] : List Instr), fresh)
    | none =>
        let p : Instr :=
          { id := fresh, kind := InstKind.ptrtoint, ops := [ptr],
            ty := Ty.int 32 }
        (Instr.value p, [p], fresh + 1)
  let (truncated₂, insts₂, fr₂) :=
    match ptrMask W with
    | some m =>
        let a : Instr :=
          { id := fr₁, kind := InstKind.and,
            ops := [truncated, Value.constInt 32 m], ty := Ty.int 32 }
        (Instr.value a, insts₁ ++ [a], fr₁ + 1)
    | none => (truncated, insts₁, fr₁)
  let ext : Instr :=
    { id := fr₂, kind := InstKind.zext, ops := [truncated₂], ty := Ty.int 64 }
  let addBase : Instr :=
    { id := fr₂ + 1, kind := InstKind.add,
      ops := [Instr.value memBase, Instr.value ext], ty := Ty.int 64 }
  match fold with
  | some info =>
      let ao : Instr :=
        { id := fr₂ + 2, kind := InstKind.add,
          ops := [Instr.value addBase, Value.constInt 64 info.offset.toNat],
          ty := Ty.int 64 }
      let sp : Instr :=
        { id := fr₂ + 3, kind := InstKind.inttoptr, ops := [Instr.value ao],
          ty := ptr.ty }
      (insts₂ ++ [ext, addBase, ao, sp], ao, sp, fr₂ + 4)
  | none =>
      let sp : Instr :=
        { id := fr₂ + 2, kind := InstKind.inttoptr,
          ops := [Instr.value addBase], ty := ptr.ty }
      (insts₂ ++ [ext, addBase, sp], addBase, sp, fr₂ + 3)

/-- The cleanup of the optimized path (source lines 213-223): copy the
debug locations of the redundant `add` and `inttoptr` onto `AddOffset` and
`SandboxedPtr`, then erase the redundant cast if now dead, then the
redundant add if now dead — in that order.  `eraseIfDead` is one
`use_empty`-guarded `eraseFromParent` call. -/
def eraseIfDead (w : Work) (i : Nat) : Work :=
  if usedBy w i then w else eraseInstr w i

/-- The debug-location copies followed by the two dead-code removals of the
optimized path, cast checked and removed before the add. -/
def cleanupFolded (w : Work) (aoId spId : Nat) (info : FoldInfo) : Work :=
  eraseIfDead
    (eraseIfDead
      (copyDebugAt (copyDebugAt w aoId info.redundantAdd.dbg)
        spId info.redundantCast.dbg)
      info.redundantCast.id)
    info.redundantAdd.id

/-- `SandboxMemoryAccesses::sandboxPtrOperand`: acquire the memory base,
recognize the folded-offset pattern, build the sandboxing instructions
(inserted immediately before the cursor, i.e. appended to `doneCur`),
replace the pointer operand, and on the optimized path run the cleanup. -/
def sandboxPtrOperand (W : Nat) (opNum : Nat) (isFCVA : Bool) (w : Work) :
    Work :=
  let acq := acquireMemBase w
  let w₁ := acq.1
  let ptr := w₁.cur.getOperand opNum
  let fold := recognizeFolded W w₁ ptr isFCVA
  let built := buildSandboxInsts W acq.2 ptr fold w₁.fresh
  let w₂ :=
    { w₁ with
      doneCur := w₁.doneCur ++ built.1,
      cur := w₁.cur.setOperand opNum (Instr.value built.2.2.1),
      fresh := built.2.2.2 }
  match fold with
  | none => w₂
  | some info => cleanupFolded w₂ built.2.1.id built.2.2.1.id info

/-- `SandboxMemoryAccesses::sandboxLenOperand`: if a mask is configured,
insert `and len, mask` before the cursor and make it the new length
operand; otherwise do nothing. -/
def sandboxLenOperand (W : Nat) (opNum : Nat) (w : Work) : Work :=
  match ptrMask W with
  | some m =>
      let len := w.cur.getOperand opNum
      let masked : Instr :=
        { id := w.fresh, kind := InstKind.and,
          ops := [len, Value.constInt 32 m], ty := Ty.int 32 }
      { w with
        doneCur := w.doneCur ++ [masked],
        cur := w.cur.setOperand opNum (Instr.value masked),
        fresh := w.fresh + 1 }
  | none => w

/-- The per-instruction dispatch of `SandboxMemoryAccesses::runOnFunction`
(source lines 259-291); a `true` result of
`checkDoesNotHavePointerOperands` is `report_fatal_error`, aborting the
compilation with the fixed message. -/
def dispatchInstr (W : Nat) (w : Work) : Except String Work :=
  match w.cur.kind with
  | .load => .ok (sandboxPtrOperand W 0 true w)
  | .store => .ok (sandboxPtrOperand W 1 true w)
  | .memcpy | .memmove =>
      .ok (sandboxLenOperand W 2
        (sandboxPtrOperand W 1 false (sandboxPtrOperand W 0 false w)))
  | .memset =>
      .ok (sandboxLenOperand W 2 (sandboxPtrOperand W 0 false w))
  | .intrinsic iid =>
      match iid with
      | .naclAtomicLoad | .naclAtomicCmpxchg =>
          .ok (sandboxPtrOperand W 0 true w)
      | .naclAtomicStore | .naclAtomicRmw | .naclAtomicIsLockFree =>
          .ok (sandboxPtrOperand W 1 true w)
      | .otherIntrinsic _ =>
          if checkDoesNotHavePointerOperands w.cur then .error fatalMessage
          else .ok w
  | .ptrtoint | .bitcast => .ok w
  | _ =>
      if checkDoesNotHavePointerOperands w.cur then .error fatalMessage
      else .ok w

/-- Total instruction payload of the unprocessed blocks. -/
def sumLen (bs : List Block) : Nat :=
  (bs.map List.length).sum

/-- The unprocessed part of the state never grows: erasure and rewriting
only remove or replace instructions ahead of the cursor.  Used for
termination of the driver loop. -/
def Shrinks (w w' : Work) : Prop :=
  w'.suffix.length ≤ w.suffix.length ∧
  sumLen w'.restBlocks ≤ sumLen w.restBlocks ∧
  w'.restBlocks.length = w.restBlocks.length

theorem shrinks_refl (w : Work) : Shrinks w w :=
  ⟨le_refl _, le_refl _, rfl⟩

theorem shrinks_trans {w₁ w₂ w₃ : Work} (h₁ : Shrinks w₁ w₂)
    (h₂ : Shrinks w₂ w₃) : Shrinks w₁ w₃ :=
  ⟨le_trans h₂.1 h₁.1, le_trans h₂.2.1 h₁.2.1, h₂.2.2.trans h₁.2.2⟩

theorem eraseInstr_shrinks (w : Work) (i : Nat) : Shrinks w (eraseInstr w i) := by
  refine ⟨List.length_filter_le _ _, ?_, by simp [eraseInstr]⟩
  unfold eraseInstr sumLen
  simp only [List.map_map]
  exact List.sum_le_sum (fun b _ => List.length_filter_le _ b)

theorem copyDebugAt_shrinks (w : Work) (i : Nat) (d : Option Nat) :
    Shrinks w (copyDebugAt w i d) :=
  ⟨le_refl _, le_refl _, rfl⟩

theorem eraseIfDead_shrinks (w : Work) (i : Nat) : Shrinks w (eraseIfDead w i) := by
  unfold eraseIfDead
  split
  · exact shrinks_refl _
  · exact eraseInstr_shrinks _ _

theorem cleanupFolded_shrinks (w : Work) (aoId spId : Nat) (info : FoldInfo) :
    Shrinks w (cleanupFolded w aoId spId info) := by
  unfold cleanupFolded
  exact shrinks_trans
    (shrinks_trans
      (shrinks_trans (copyDebugAt_shrinks _ _ _) (copyDebugAt_shrinks _ _ _))
      (eraseIfDead_shrinks _ _))
    (eraseIfDead_shrinks _ _)

theorem acquireMemBase_shrinks (w : Work) : Shrinks w (acquireMemBase w).1 := by
  unfold acquireMemBase
  cases w.memBase <;> exact shrinks_refl _

theorem shrinks_update (w : Work) (dc : Block) (c : Instr) (fr : Nat) :
    Shrinks w { w with doneCur := dc, cur := c, fresh := fr } :=
  ⟨le_refl _, le_refl _, rfl⟩

theorem sandboxPtrOperand_shrinks (W opNum : Nat) (fc : Bool) (w : Work) :
    Shrinks w (sandboxPtrOperand W opNum fc w) := by
  simp only [sandboxPtrOperand]
  split
  · exact shrinks_trans (acquireMemBase_shrinks w) (shrinks_update _ _ _ _)
  · exact shrinks_trans
      (shrinks_trans (acquireMemBase_shrinks w) (shrinks_update _ _ _ _))
      (cleanupFolded_shrinks _ _ _ _)

theorem sandboxLenOperand_shrinks (W opNum : Nat) (w : Work) :
    Shrinks w (sandboxLenOperand W opNum w) := by
  unfold sandboxLenOperand
  split
  · exact shrinks_update _ _ _ _
  · exact shrinks_refl _

theorem dispatchInstr_shrinks {W : Nat} {w w' : Work}
    (h : dispatchInstr W w = .ok w') : Shrinks w w' := by
  unfold dispatchInstr at h
  split at h <;> try split at h <;> try split at h
  all_goals
    first
    | exact Except.noConfusion h
    | (injection h with h; subst h;
       first
       | exact shrinks_refl _
       | exact sandboxPtrOperand_shrinks _ _ _ _
       | exact shrinks_trans (sandboxPtrOperand_shrinks _ _ _ _)
           (sandboxLenOperand_shrinks _ _ _)
       | exact shrinks_trans
           (shrinks_trans (sandboxPtrOperand_shrinks _ _ _ _)
             (sandboxPtrOperand_shrinks _ _ _ _))
           (sandboxLenOperand_shrinks _ _ _))

/-- Driver loop state: like `Work` but with no instruction under the
cursor (`rest` is the unprocessed remainder of the current block). -/
structure FnWork where
  doneBlocks : List Block
  doneCur : Block
  rest : List Instr
  restBlocks : List Block
  memBase : Option Instr
  fresh : Nat
  deriving DecidableEq, Repr

/-- Put the cursor on `inst`. -/
def toWork (s : FnWork) (inst : Instr) (rest : List Instr) : Work :=
  { doneBlocks := s.doneBlocks, doneCur := s.doneCur, cur := inst,
    suffix := rest, restBlocks := s.restBlocks, memBase := s.memBase,
    fresh := s.fresh }

/-- Advance past the cursor (`++Inst` of the source iteration): the
processed instruction joins the processed portion of its block. -/
def ofWork (w : Work) : FnWork :=
  { doneBlocks := w.doneBlocks, doneCur := w.doneCur ++ [w.cur],
    rest := w.suffix, restBlocks := w.restBlocks, memBase := w.memBase,
    fresh := w.fresh }

/-- Termination measure of the driver loop. -/
def fnMeasure (s : FnWork) : Nat :=
  s.rest.length + sumLen s.restBlocks + s.restBlocks.length

/-- The instruction/block iteration of
`SandboxMemoryAccesses::runOnFunction`: dispatch each instruction in
program order, abort on a fatal validation error. -/
def processFn (W : Nat) (s : FnWork) : Except String FnWork :=
  match h₁ : s.rest with
  | inst :: rest =>
      match h₂ : dispatchInstr W (toWork s inst rest) with
      | .error e => .error e
      | .ok w => processFn W (ofWork w)
  | [] =>
      match h₃ : s.restBlocks with
      | [] => .ok s
      | b :: bs =>
          processFn W
            { doneBlocks := s.doneBlocks ++ [s.doneCur], doneCur := [],
              rest := b, restBlocks := bs, memBase := s.memBase,
              fresh := s.fresh }
termination_by fnMeasure s
decreasing_by
  · obtain ⟨a, b, c⟩ := dispatchInstr_shrinks h₂
    simp only [fnMeasure, ofWork, toWork] at a b c ⊢
    rw [h₁]
    simp only [List.length_cons]
    omega
  · simp only [fnMeasure]
    rw [h₁, h₃]
    simp only [List.length_nil, List.length_cons, sumLen, List.map_cons,
      List.sum_cons]
    omega

/-- `SandboxMemoryAccesses::runOnFunction`: process all blocks, then place
the synthesized memory-base load (if any) at the very start of the entry
block.  Returns the transformed blocks and the next fresh id. -/
def runOnFunction (W : Nat) (fresh0 : Nat) (blocks : List Block) :
    Except String (List Block × Nat) :=
  match blocks with
  | [] => .ok ([], fresh0)
  | b :: bs =>
      match processFn W
          { doneBlocks := [], doneCur := [], rest := b, restBlocks := bs,
            memBase := none, fresh := fresh0 } with
      | .error e => .error e
      | .ok s =>
          match s.memBase with
          | some mb =>
              match s.doneBlocks ++ [s.doneCur] with
              | e :: r => .ok ((mb :: e) :: r, s.fresh)
              | [] => .ok ([[mb]], s.fresh)
          | none => .ok (s.doneBlocks ++ [s.doneCur], s.fresh)

/-- The per-function part of `SandboxMemoryAccesses::runOnModule`: every
function is processed with its own empty memory-base cache (`Value *MemBase
= NULL` at the start of each `runOnFunction` call); the fresh-id supply is
threaded through so distinct functions get distinct new instructions. -/
def runOnModule (W : Nat) (fresh0 : Nat) (fns : List (List Block)) :
    Except String (List (List Block) × Nat) :=
  match fns with
  | [] => .ok ([], fresh0)
  | f :: rest =>
      match runOnFunction W fresh0 f with
      | .error e => .error e
      | .ok (f', fr₁) =>
          match runOnModule W fr₁ rest with
          | .error e => .error e
          | .ok (rest', fr₂) => .ok (f' :: rest', fr₂)

/-! ## Runtime evaluation of the synthesized instruction chains -/

/-- Evaluate a value under a partial store `σ` of instruction results and
an assignment `env` of function arguments. -/
def evalValue (σ : Nat → Option Nat) (env : Nat → Nat) : Value → Option Nat
  | .constInt _ n => some n
  | .arg n _ => some (env n)
  | .instRef i _ => σ i
  | .globalRef _ _ => none

/-- Machine semantics of the instruction kinds the pass synthesizes, on
`Nat` with explicit `% 2 ^ w` truncation at the result width.  A load from
the `__sfi_memory_base` global yields the runtime-defined sandbox base
`base`. -/
def evalInstr (base : Nat) (σ : Nat → Option Nat) (env : Nat → Nat)
    (inst : Instr) : Option Nat :=
  match inst.kind with
  | .load =>
      match inst.ops with
      | [Value.globalRef g _] => if g = memBaseName then some base else none
      | _ => none
  | .ptrtoint =>
      (evalValue σ env (inst.getOperand 0)).map
        (fun p => p % 2 ^ Ty.bitWidth inst.ty)
  | .and => do
      let a ← evalValue σ env (inst.getOperand 0)
      let b ← evalValue σ env (inst.getOperand 1)
      pure (a &&& b)
  | .zext => evalValue σ env (inst.getOperand 0)
  | .add => do
      let a ← evalValue σ env (inst.getOperand 0)
      let b ← evalValue σ env (inst.getOperand 1)
      pure ((a + b) % 2 ^ Ty.bitWidth inst.ty)
  | .inttoptr =>
      (evalValue σ env (inst.getOperand 0)).map
        (fun p => p % 2 ^ Ty.bitWidth inst.ty)
  | _ => none

/-- Evaluate a straight-line instruction sequence, extending the store. -/
def evalChain (base : Nat) (env : Nat → Nat) (σ : Nat → Option Nat) :
    List Instr → (Nat → Option Nat)
  | [] => σ
  | inst :: rest =>
      evalChain base env
        (fun j => if j = inst.id then evalInstr base σ env inst else σ j) rest

/-! ## Basic facts about the pass's building blocks -/

theorem acquireMemBase_fields (w : Work) :
    (acquireMemBase w).1.doneBlocks = w.doneBlocks ∧
    (acquireMemBase w).1.doneCur = w.doneCur ∧
    (acquireMemBase w).1.cur = w.cur ∧
    (acquireMemBase w).1.suffix = w.suffix ∧
    (acquireMemBase w).1.restBlocks = w.restBlocks := by
  unfold acquireMemBase
  cases w.memBase <;> exact ⟨rfl, rfl, rfl, rfl, rfl⟩

theorem acquireMemBase_of_some {w : Work} {mb : Instr} (h : w.memBase = some mb) :
    acquireMemBase w = (w, mb) := by
  unfold acquireMemBase
  rw [h]

theorem acquireMemBase_of_none {w : Work} (h : w.memBase = none) :
    acquireMemBase w =
      ({ w with memBase := some (memBaseLoad w.fresh), fresh := w.fresh + 1 },
       memBaseLoad w.fresh) := by
  unfold acquireMemBase
  rw [h]

theorem findDef_acquire (w : Work) (i : Nat) :
    findDef (acquireMemBase w).1 i = findDef w i := by
  unfold findDef allInstrs acquireMemBase
  cases w.memBase <;> rfl

theorem recognizeFolded_acquire (W : Nat) (w : Work) (v : Value) (b : Bool) :
    recognizeFolded W (acquireMemBase w).1 v b = recognizeFolded W w v b := by
  unfold recognizeFolded
  rw [show findDef (acquireMemBase w).1 = findDef w from funext (findDef_acquire w)]

/-- Unfolding of `sandboxPtrOperand` when the folded-offset pattern is not
recognized: no cleanup runs; the new instructions land right before the
cursor and the pointer operand is replaced. -/
theorem sandboxPtrOperand_general {W opNum : Nat} {fc : Bool} {w : Work}
    (hfold : recognizeFolded W w (w.cur.getOperand opNum) fc = none) :
    sandboxPtrOperand W opNum fc w =
      { (acquireMemBase w).1 with
        doneCur := (acquireMemBase w).1.doneCur ++
          (buildSandboxInsts W (acquireMemBase w).2 (w.cur.getOperand opNum)
            none (acquireMemBase w).1.fresh).1,
        cur := w.cur.setOperand opNum
          (Instr.value (buildSandboxInsts W (acquireMemBase w).2
            (w.cur.getOperand opNum) none (acquireMemBase w).1.fresh).2.2.1),
        fresh := (buildSandboxInsts W (acquireMemBase w).2
          (w.cur.getOperand opNum) none (acquireMemBase w).1.fresh).2.2.2 } := by
  have hc := (acquireMemBase_fields w).2.2.1
  simp only [sandboxPtrOperand, hc, recognizeFolded_acquire, hfold]

/-- Unfolding of `sandboxPtrOperand` when the folded-offset pattern is
recognized: the cleanup runs on the state with the new instructions in
place and the operand replaced. -/
theorem sandboxPtrOperand_folded {W opNum : Nat} {fc : Bool} {w : Work}
    {info : FoldInfo}
    (hfold : recognizeFolded W w (w.cur.getOperand opNum) fc = some info) :
    sandboxPtrOperand W opNum fc w =
      cleanupFolded
        { (acquireMemBase w).1 with
          doneCur := (acquireMemBase w).1.doneCur ++
            (buildSandboxInsts W (acquireMemBase w).2 (w.cur.getOperand opNum)
              (some info) (acquireMemBase w).1.fresh).1,
          cur := w.cur.setOperand opNum
            (Instr.value (buildSandboxInsts W (acquireMemBase w).2
              (w.cur.getOperand opNum) (some info) (acquireMemBase w).1.fresh).2.2.1),
          fresh := (buildSandboxInsts W (acquireMemBase w).2
            (w.cur.getOperand opNum) (some info) (acquireMemBase w).1.fresh).2.2.2 }
        (buildSandboxInsts W (acquireMemBase w).2 (w.cur.getOperand opNum)
          (some info) (acquireMemBase w).1.fresh).2.1.id
        (buildSandboxInsts W (acquireMemBase w).2 (w.cur.getOperand opNum)
          (some info) (acquireMemBase w).1.fresh).2.2.1.id
        info := by
  have hc := (acquireMemBase_fields w).2.2.1
  simp only [sandboxPtrOperand, hc, recognizeFolded_acquire, hfold]

/-! ## Shapes of the synthesized instruction sequences -/

theorem buildSandboxInsts_general_mask {W m : Nat} (hm : ptrMask W = some m)
    (mb : Instr) (ptr : Value) (fresh : Nat) :
    buildSandboxInsts W mb ptr none fresh =
      ([{ id := fresh, kind := InstKind.ptrtoint, ops := [ptr],
          ty := Ty.int 32 },
        { id := fresh + 1, kind := InstKind.and,
          ops := [Value.instRef fresh (Ty.int 32), Value.constInt 32 m],
          ty := Ty.int 32 },
        { id := fresh + 2, kind := InstKind.zext,
          ops := [Value.instRef (fresh + 1) (Ty.int 32)], ty := Ty.int 64 },
        { id := fresh + 3, kind := InstKind.add,
          ops := [Instr.value mb, Value.instRef (fresh + 2) (Ty.int 64)],
          ty := Ty.int 64 },
        { id := fresh + 4, kind := InstKind.inttoptr,
          ops := [Value.instRef (fresh + 3) (Ty.int 64)], ty := ptr.ty }],
       { id := fresh + 3, kind := InstKind.add,
         ops := [Instr.value mb, Value.instRef (fresh + 2) (Ty.int 64)],
         ty := Ty.int 64 },
       { id := fresh + 4, kind := InstKind.inttoptr,
         ops := [Value.instRef (fresh + 3) (Ty.int 64)], ty := ptr.ty },
       fresh + 5) := by
  simp [buildSandboxInsts, hm, Instr.value]

theorem buildSandboxInsts_general_nomask {W : Nat} (hm : ptrMask W = none)
    (mb : Instr) (ptr : Value) (fresh : Nat) :
    buildSandboxInsts W mb ptr none fresh =
      ([{ id := fresh, kind := InstKind.ptrtoint, ops := [ptr],
          ty := Ty.int 32 },
        { id := fresh + 1, kind := InstKind.zext,
          ops := [Value.instRef fresh (Ty.int 32)], ty := Ty.int 64 },
        { id := fresh + 2, kind := InstKind.add,
          ops := [Instr.value mb, Value.instRef (fresh + 1) (Ty.int 64)],
          ty := Ty.int 64 },
        { id := fresh + 3, kind := InstKind.inttoptr,
          ops := [Value.instRef (fresh + 2) (Ty.int 64)], ty := ptr.ty }],
       { id := fresh + 2, kind := InstKind.add,
         ops := [Instr.value mb, Value.instRef (fresh + 1) (Ty.int 64)],
         ty := Ty.int 64 },
       { id := fresh + 3, kind := InstKind.inttoptr,
         ops := [Value.instRef (fresh + 2) (Ty.int 64)], ty := ptr.ty },
       fresh + 4) := by
  simp [buildSandboxInsts, hm, Instr.value]

theorem buildSandboxInsts_folded_mask {W m : Nat} (hm : ptrMask W = some m)
    (mb : Instr) (ptr : Value) (info : FoldInfo) (fresh : Nat) :
    buildSandboxInsts W mb ptr (some info) fresh =
      ([{ id := fresh, kind := InstKind.and,
          ops := [info.truncated, Value.constInt 32 m], ty := Ty.int 32 },
        { id := fresh + 1, kind := InstKind.zext,
          ops := [Value.instRef fresh (Ty.int 32)], ty := Ty.int 64 },
        { id := fresh + 2, kind := InstKind.add,
          ops := [Instr.value mb, Value.instRef (fresh + 1) (Ty.int 64)],
          ty := Ty.int 64 },
        { id := fresh + 3, kind := InstKind.add,
          ops := [Value.instRef (fresh + 2) (Ty.int 64),
                  Value.constInt 64 info.offset.toNat],
          ty := Ty.int 64 },
        { id := fresh + 4, kind := InstKind.inttoptr,
          ops := [Value.instRef (fresh + 3) (Ty.int 64)], ty := ptr.ty }],
       { id := fresh + 3, kind := InstKind.add,
         ops := [Value.instRef (fresh + 2) (Ty.int 64),
                 Value.constInt 64 info.offset.toNat],
         ty := Ty.int 64 },
       { id := fresh + 4, kind := InstKind.inttoptr,
         ops := [Value.instRef (fresh + 3) (Ty.int 64)], ty := ptr.ty },
       fresh + 5) := by
  simp [buildSandboxInsts, hm, Instr.value]

theorem buildSandboxInsts_folded_nomask {W : Nat} (hm : ptrMask W = none)
    (mb : Instr) (ptr : Value) (info : FoldInfo) (fresh : Nat) :
    buildSandboxInsts W mb ptr (some info) fresh =
      ([{ id := fresh, kind := InstKind.zext, ops := [info.truncated],
          ty := Ty.int 64 },
        { id := fresh + 1, kind := InstKind.add,
          ops := [Instr.value mb, Value.instRef fresh (Ty.int 64)],
          ty := Ty.int 64 },
        { id := fresh + 2, kind := InstKind.add,
          ops := [Value.instRef (fresh + 1) (Ty.int 64),
                  Value.constInt 64 info.offset.toNat],
          ty := Ty.int 64 },
        { id := fresh + 3, kind := InstKind.inttoptr,
          ops := [Value.instRef (fresh + 2) (Ty.int 64)], ty := ptr.ty }],
       { id := fresh + 2, kind := InstKind.add,
         ops := [Value.instRef (fresh + 1) (Ty.int 64),
                 Value.constInt 64 info.offset.toNat],
         ty := Ty.int 64 },
       { id := fresh + 3, kind := InstKind.inttoptr,
         ops := [Value.instRef (fresh + 2) (Ty.int 64)], ty := ptr.ty },
       fresh + 4) := by
  simp [buildSandboxInsts, hm, Instr.value]

/-! ## Runtime values of the synthesized chains -/

theorem evalChain_general_mask {W m : Nat} (hm : ptrMask W = some m)
    (base p : Nat) (env : Nat → Nat) (σ : Nat → Option Nat)
    (mbid fresh : Nat) (ptr : Value)
    (hlt : mbid < fresh)
    (hbw : Ty.bitWidth ptr.ty = 64)
    (hp : evalValue (fun j => if j = mbid then some base else σ j) env ptr =
      some p) :
    evalChain base env σ
        (memBaseLoad mbid :: (buildSandboxInsts W (memBaseLoad mbid) ptr none fresh).1)
        (buildSandboxInsts W (memBaseLoad mbid) ptr none fresh).2.2.1.id =
      some ((base + ((p % 2 ^ 32) &&& m)) % 2 ^ 64) := by
  rw [buildSandboxInsts_general_mask hm]
  have d0 : mbid ≠ fresh := by omega
  have d1 : mbid ≠ fresh + 1 := by omega
  have d2 : mbid ≠ fresh + 2 := by omega
  simp only [evalValue] at hp
  simp [evalChain, evalInstr, evalValue, Instr.getOperand, Instr.value,
    memBaseLoad, d0, d1, d2, hp, hbw]
  norm_num [Ty.bitWidth]

theorem evalChain_general_nomask {W : Nat} (hm : ptrMask W = none)
    (base p : Nat) (env : Nat → Nat) (σ : Nat → Option Nat)
    (mbid fresh : Nat) (ptr : Value)
    (hlt : mbid < fresh)
    (hbw : Ty.bitWidth ptr.ty = 64)
    (hp : evalValue (fun j => if j = mbid then some base else σ j) env ptr =
      some p) :
    evalChain base env σ
        (memBaseLoad mbid :: (buildSandboxInsts W (memBaseLoad mbid) ptr none fresh).1)
        (buildSandboxInsts W (memBaseLoad mbid) ptr none fresh).2.2.1.id =
      some ((base + p % 2 ^ 32) % 2 ^ 64) := by
  rw [buildSandboxInsts_general_nomask hm]
  have d0 : mbid ≠ fresh := by omega
  have d1 : mbid ≠ fresh + 1 := by omega
  simp only [evalValue] at hp
  simp [evalChain, evalInstr, evalValue, Instr.getOperand, Instr.value,
    memBaseLoad, d0, d1, hp, hbw]
  norm_num [Ty.bitWidth]

theorem evalChain_folded_mask {W m : Nat} (hm : ptrMask W = some m)
    (base x : Nat) (env : Nat → Nat) (σ : Nat → Option Nat)
    (mbid fresh : Nat) (ptr : Value) (info : FoldInfo)
    (hlt : mbid < fresh)
    (hbw : Ty.bitWidth ptr.ty = 64)
    (hx : evalValue (fun j => if j = mbid then some base else σ j) env
      info.truncated = some x) :
    evalChain base env σ
        (memBaseLoad mbid ::
          (buildSandboxInsts W (memBaseLoad mbid) ptr (some info) fresh).1)
        (buildSandboxInsts W (memBaseLoad mbid) ptr (some info) fresh).2.2.1.id =
      some ((base + (x &&& m) + info.offset.toNat) % 2 ^ 64) := by
  rw [buildSandboxInsts_folded_mask hm]
  have d0 : mbid ≠ fresh := by omega
  have d1 : mbid ≠ fresh + 1 := by omega
  simp only [evalValue] at hx
  simp [evalChain, evalInstr, evalValue, Instr.getOperand, Instr.value,
    memBaseLoad, d0, d1, hx, hbw]
  norm_num [Ty.bitWidth, Nat.mod_add_mod]

theorem evalChain_folded_nomask {W : Nat} (hm : ptrMask W = none)
    (base x : Nat) (env : Nat → Nat) (σ : Nat → Option Nat)
    (mbid fresh : Nat) (ptr : Value) (info : FoldInfo)
    (hlt : mbid < fresh)
    (hbw : Ty.bitWidth ptr.ty = 64)
    (hx : evalValue (fun j => if j = mbid then some base else σ j) env
      info.truncated = some x) :
    evalChain base env σ
        (memBaseLoad mbid ::
          (buildSandboxInsts W (memBaseLoad mbid) ptr (some info) fresh).1)
        (buildSandboxInsts W (memBaseLoad mbid) ptr (some info) fresh).2.2.1.id =
      some ((base + x + info.offset.toNat) % 2 ^ 64) := by
  rw [buildSandboxInsts_folded_nomask hm]
  have d0 : mbid ≠ fresh := by omega
  have d1 : mbid ≠ fresh + 1 := by omega
  simp only [evalValue] at hx
  simp [evalChain, evalInstr, evalValue, Instr.getOperand, Instr.value,
    memBaseLoad, d0, d1, hx, hbw]
  norm_num [Ty.bitWidth, Nat.mod_add_mod]

/-! ## Claim C1: the validator's closed-world guarantee -/

/-- The instruction kinds the driver handles explicitly (everything else is
routed to the operand validator): load, store, the three bulk memory
intrinsics, the five `nacl.atomic` intrinsics, `ptrtoint` and `bitcast`. -/
def handledKind : InstKind → Bool
  | .load | .store | .memcpy | .memmove | .memset => true
  | .intrinsic .naclAtomicLoad | .intrinsic .naclAtomicStore
  | .intrinsic .naclAtomicRmw | .intrinsic .naclAtomicCmpxchg
  | .intrinsic .naclAtomicIsLockFree => true
  | .ptrtoint | .bitcast => true
  | _ => false

/-- **C1.** For every instruction whose kind is not one of the explicitly
handled kinds (load, store, bulk-copy, bulk-move, bulk-set, the five listed
`nacl.atomic` intrinsics of the driver's dispatch table, pointer-to-integer
cast, bitcast), the pass aborts the compilation with the fatal error if and
only if the instruction has a pointer-typed operand — where for call-like
instructions only the argument operands are checked and the trailing
callee-target operand is exempt — and any such instruction with zero
pointer-typed (argument) operands passes through unchanged. -/
theorem unhandledKind_fatal_iff_pointerOperand (W : Nat) (w : Work)
    (h : handledKind w.cur.kind = false) :
    (dispatchInstr W w = Except.error fatalMessage ↔
      (if isCallInst w.cur then
        (argOperands w.cur).any (fun v => v.ty.isPointerTy)
       else w.cur.ops.any (fun v => v.ty.isPointerTy)) = true) ∧
    ((if isCallInst w.cur then
        (argOperands w.cur).any (fun v => v.ty.isPointerTy)
      else w.cur.ops.any (fun v => v.ty.isPointerTy)) = false →
      dispatchInstr W w = Except.ok w) := by
  have key : dispatchInstr W w =
      (if checkDoesNotHavePointerOperands w.cur then Except.error fatalMessage
       else Except.ok w) := by
    unfold dispatchInstr
    cases hk : w.cur.kind
    case intrinsic iid =>
      cases iid <;> simp [handledKind, hk] at h ⊢
    all_goals simp [handledKind, hk] at h ⊢
  rw [key]
  unfold checkDoesNotHavePointerOperands
  cases hc : (if isCallInst w.cur then
      (argOperands w.cur).any (fun v => v.ty.isPointerTy)
    else w.cur.ops.any (fun v => v.ty.isPointerTy)) <;>
    simp [hc]

/-- Test fixture: a work state holding a single instruction. -/
def singleWork (inst : Instr) (fresh : Nat) : Work :=
  { doneBlocks := [], doneCur := [], cur := inst, suffix := [],
    restBlocks := [], memBase := none, fresh := fresh }

/-- Test fixture: an `icmp` of two pointers — an unrecognized instruction
with pointer-typed operands. -/
def icmpPtrPtr : Instr :=
  { id := 1, kind := InstKind.other 51,
    ops := [Value.instRef 0 (Ty.ptr (Ty.int 8)),
            Value.instRef 0 (Ty.ptr (Ty.int 8))],
    ty := Ty.int 1 }

/-- Test fixture: an integer add — an unrecognized-by-the-validator path
with zero pointer operands. -/
def addI32 : Instr :=
  { id := 1, kind := InstKind.add,
    ops := [Value.arg 0 (Ty.int 32), Value.constInt 32 7], ty := Ty.int 32 }

theorem unhandledKind_fatal_iff_pointerOperand_witness :
    ((dispatchInstr 32 (singleWork icmpPtrPtr 2) = Except.error fatalMessage ↔
      (if isCallInst icmpPtrPtr then
        (argOperands icmpPtrPtr).any (fun v => v.ty.isPointerTy)
       else icmpPtrPtr.ops.any (fun v => v.ty.isPointerTy)) = true) ∧
     ((if isCallInst icmpPtrPtr then
        (argOperands icmpPtrPtr).any (fun v => v.ty.isPointerTy)
       else icmpPtrPtr.ops.any (fun v => v.ty.isPointerTy)) = false →
      dispatchInstr 32 (singleWork icmpPtrPtr 2) =
        Except.ok (singleWork icmpPtrPtr 2))) ∧
    ((dispatchInstr 32 (singleWork addI32 2) = Except.error fatalMessage ↔
      (if isCallInst addI32 then
        (argOperands addI32).any (fun v => v.ty.isPointerTy)
       else addI32.ops.any (fun v => v.ty.isPointerTy)) = true) ∧
     ((if isCallInst addI32 then
        (argOperands addI32).any (fun v => v.ty.isPointerTy)
       else addI32.ops.any (fun v => v.ty.isPointerTy)) = false →
      dispatchInstr 32 (singleWork addI32 2) =
        Except.ok (singleWork addI32 2))) :=
  ⟨unhandledKind_fatal_iff_pointerOperand 32 (singleWork icmpPtrPtr 2)
      (by decide),
   unhandledKind_fatal_iff_pointerOperand 32 (singleWork addI32 2)
      (by decide)⟩

/-! ## Claim C5: calls and the validator -/

/-- Test fixture: a call passing one pointer-typed argument (last operand
is the callee target). -/
def callPtrArg : Instr :=
  { id := 1, kind := InstKind.call,
    ops := [Value.instRef 0 (Ty.ptr (Ty.int 8)),
            Value.globalRef "f" (Ty.ptr Ty.void)],
    ty := Ty.void }

/-- Test fixture: a call with one integer argument; the callee-target
operand itself is pointer-typed. -/
def callIntArg : Instr :=
  { id := 1, kind := InstKind.call,
    ops := [Value.constInt 32 5, Value.globalRef "f" (Ty.ptr Ty.void)],
    ty := Ty.void }

/-- **C5, counterexample.**  The claim states that a call instruction
passing a pointer-typed argument raises no fatal error; on the code, the
validator checks exactly the argument operands of a call, so such a call
aborts the compilation. -/
theorem call_pointerArg_fatal_cex :
    dispatchInstr 32 (singleWork callPtrArg 2) = Except.error fatalMessage := by
  rfl

/-- **C5, amended.**  For a call instruction the fatal error fires exactly
when some *argument* operand is pointer-typed: the callee-target operand is
exempt, so a call whose arguments are pointer-free passes unchanged even
though its callee operand is a pointer; a pointer-typed operand of a
non-call instruction of an unrecognized kind likewise causes the fatal
error (whose diagnostic is the fixed message `fatalMessage`, not naming the
instruction). -/
theorem call_args_checked_callee_exempt (W : Nat) (w : Work) :
    (w.cur.kind = InstKind.call →
      (dispatchInstr W w = Except.error fatalMessage ↔
        (argOperands w.cur).any (fun v => v.ty.isPointerTy) = true) ∧
      ((argOperands w.cur).any (fun v => v.ty.isPointerTy) = false →
        dispatchInstr W w = Except.ok w)) ∧
    (∀ opc, w.cur.kind = InstKind.other opc →
      (dispatchInstr W w = Except.error fatalMessage ↔
        w.cur.ops.any (fun v => v.ty.isPointerTy) = true)) := by
  constructor
  · intro hk
    have key : dispatchInstr W w =
        (if checkDoesNotHavePointerOperands w.cur then Except.error fatalMessage
         else Except.ok w) := by
      unfold dispatchInstr
      simp [hk]
    have hcall : isCallInst w.cur = true := by simp [isCallInst, hk]
    rw [key]
    unfold checkDoesNotHavePointerOperands
    rw [hcall]
    cases hc : (argOperands w.cur).any (fun v => v.ty.isPointerTy) <;>
      simp [hc]
  · intro opc hk
    have key : dispatchInstr W w =
        (if checkDoesNotHavePointerOperands w.cur then Except.error fatalMessage
         else Except.ok w) := by
      unfold dispatchInstr
      simp [hk]
    have hcall : isCallInst w.cur = false := by simp [isCallInst, hk]
    rw [key]
    unfold checkDoesNotHavePointerOperands
    rw [hcall]
    cases hc : w.cur.ops.any (fun v => v.ty.isPointerTy) <;> simp [hc]

theorem call_args_checked_callee_exempt_witness :
    ((dispatchInstr 32 (singleWork callPtrArg 2) = Except.error fatalMessage ↔
      (argOperands callPtrArg).any (fun v => v.ty.isPointerTy) = true) ∧
     ((argOperands callPtrArg).any (fun v => v.ty.isPointerTy) = false →
      dispatchInstr 32 (singleWork callPtrArg 2) =
        Except.ok (singleWork callPtrArg 2))) ∧
    ((dispatchInstr 32 (singleWork callIntArg 2) = Except.error fatalMessage ↔
      (argOperands callIntArg).any (fun v => v.ty.isPointerTy) = true) ∧
     ((argOperands callIntArg).any (fun v => v.ty.isPointerTy) = false →
      dispatchInstr 32 (singleWork callIntArg 2) =
        Except.ok (singleWork callIntArg 2))) :=
  ⟨(call_args_checked_callee_exempt 32 (singleWork callPtrArg 2)).1 rfl,
   (call_args_checked_callee_exempt 32 (singleWork callIntArg 2)).1 rfl⟩

/-! ## Claim C7: bounding of bulk-memory length operands -/

/-- **C7.**  `sandboxLenOperand` — invoked by the driver with operand index
2 for every bulk-copy (`memcpy`), bulk-move (`memmove`) and bulk-set
(`memset`) instruction — behaves as follows: when a mask is configured
(`W < 32`), the length operand is replaced by the result of a fresh
`and len, mask` instruction inserted before the cursor, whose runtime value
is `len &&& mask` and hence always at most `mask`; when no mask is
configured the state is unchanged. -/
theorem lenOperand_masked_bounded (W opNum : Nat) (w : Work) :
    (∀ m, ptrMask W = some m →
      (sandboxLenOperand W opNum w).cur =
        w.cur.setOperand opNum (Value.instRef w.fresh (Ty.int 32)) ∧
      (sandboxLenOperand W opNum w).doneCur = w.doneCur ++
        [{ id := w.fresh, kind := InstKind.and,
           ops := [w.cur.getOperand opNum, Value.constInt 32 m],
           ty := Ty.int 32 }] ∧
      ∀ (base len : Nat) (σ : Nat → Option Nat) (env : Nat → Nat),
        evalValue σ env (w.cur.getOperand opNum) = some len →
        evalInstr base σ env
            { id := w.fresh, kind := InstKind.and,
              ops := [w.cur.getOperand opNum, Value.constInt 32 m],
              ty := Ty.int 32 } = some (len &&& m) ∧
        len &&& m ≤ m) ∧
    (ptrMask W = none → sandboxLenOperand W opNum w = w) := by
  constructor
  · intro m hm
    refine ⟨?_, ?_, ?_⟩
    · simp [sandboxLenOperand, hm, Instr.value]
    · simp [sandboxLenOperand, hm]
    · intro base len σ env hlen
      constructor
      · have hlen' := hlen
        simp only [evalValue, Instr.getOperand, List.getD,
          List.get?_eq_getElem?] at hlen'
        simp [evalInstr, Instr.getOperand, evalValue, List.getD, hlen']
      · exact Nat.and_le_right
  · intro hm
    simp [sandboxLenOperand, hm]

/-- Test fixture, Scenario B: a `memset` whose length operand (index 2) is
the 32-bit constant `0x02000000`; the callee operand trails. -/
def memsetBigLen : Instr :=
  { id := 1, kind := InstKind.memset,
    ops := [Value.instRef 0 (Ty.ptr (Ty.int 8)), Value.constInt 8 0,
            Value.constInt 32 0x02000000,
            Value.globalRef "llvm.memset.p0i8.i32" (Ty.ptr Ty.void)],
    ty := Ty.void }

theorem lenOperand_masked_bounded_witness :
    ((sandboxLenOperand 24 2 (singleWork memsetBigLen 2)).cur =
      memsetBigLen.setOperand 2 (Value.instRef 2 (Ty.int 32)) ∧
     (sandboxLenOperand 24 2 (singleWork memsetBigLen 2)).doneCur =
      [] ++ [{ id := 2, kind := InstKind.and,
               ops := [memsetBigLen.getOperand 2,
                       Value.constInt 32 ((1 <<< 24) - 1)],
               ty := Ty.int 32 }] ∧
     (evalInstr 0 (fun _ => none) (fun _ => 0)
        { id := 2, kind := InstKind.and,
          ops := [memsetBigLen.getOperand 2,
                  Value.constInt 32 ((1 <<< 24) - 1)],
          ty := Ty.int 32 } = some (0x02000000 &&& ((1 <<< 24) - 1)) ∧
      0x02000000 &&& ((1 <<< 24) - 1) ≤ (1 <<< 24) - 1)) ∧
    (0x02000000 &&& ((1 <<< 24) - 1) = 0) := by
  refine ⟨?_, by decide⟩
  have h := (lenOperand_masked_bounded 24 2 (singleWork memsetBigLen 2)).1
    ((1 <<< 24) - 1) (by decide)
  exact ⟨h.1, h.2.1, h.2.2 0 0x02000000 (fun _ => none) (fun _ => 0) (by decide)⟩

/-! ## Claim C9: no mask at full 32-bit width -/

/-- **C9.**  When the configured pointer width is 32, the module
initializer produces no mask constant, and a store's pointer operand on
the general path is rewritten to `inttoptr (base + zext (ptrtoint ptr))`:
exactly a `ptrtoint`, `zext`, `add` and `inttoptr` are inserted before the
store — none of them an `and` — and the rewritten address evaluates to
`(base + ptr mod 2^32) mod 2^64`.  When `W < 32` the initializer produces
the 32-bit mask constant `(1 <<< W) - 1`. -/
theorem w32_no_mask_store_rewrite :
    (ptrMask 32 = none ∧ ∀ W, W < 32 → ptrMask W = some ((1 <<< W) - 1)) ∧
    ∀ (w : Work) (mbid base p : Nat) (σ : Nat → Option Nat) (env : Nat → Nat),
      w.cur.kind = InstKind.store →
      w.memBase = some (memBaseLoad mbid) →
      mbid < w.fresh →
      Ty.bitWidth (w.cur.getOperand 1).ty = 64 →
      recognizeFolded 32 w (w.cur.getOperand 1) true = none →
      evalValue (fun j => if j = mbid then some base else σ j) env
        (w.cur.getOperand 1) = some p →
      dispatchInstr 32 w = Except.ok (sandboxPtrOperand 32 1 true w) ∧
      (sandboxPtrOperand 32 1 true w).doneCur = w.doneCur ++
        [{ id := w.fresh, kind := InstKind.ptrtoint,
           ops := [w.cur.getOperand 1], ty := Ty.int 32 },
         { id := w.fresh + 1, kind := InstKind.zext,
           ops := [Value.instRef w.fresh (Ty.int 32)], ty := Ty.int 64 },
         { id := w.fresh + 2, kind := InstKind.add,
           ops := [Instr.value (memBaseLoad mbid),
                   Value.instRef (w.fresh + 1) (Ty.int 64)],
           ty := Ty.int 64 },
         { id := w.fresh + 3, kind := InstKind.inttoptr,
           ops := [Value.instRef (w.fresh + 2) (Ty.int 64)],
           ty := (w.cur.getOperand 1).ty }] ∧
      (∀ inst ∈ (buildSandboxInsts 32 (memBaseLoad mbid)
          (w.cur.getOperand 1) none w.fresh).1,
        inst.kind ≠ InstKind.and) ∧
      (sandboxPtrOperand 32 1 true w).cur =
        w.cur.setOperand 1
          (Value.instRef (w.fresh + 3) (w.cur.getOperand 1).ty) ∧
      evalChain base env σ
        (memBaseLoad mbid ::
          (buildSandboxInsts 32 (memBaseLoad mbid) (w.cur.getOperand 1)
            none w.fresh).1)
        (w.fresh + 3) = some ((base + p % 2 ^ 32) % 2 ^ 64) := by
  have hmask32 : ptrMask 32 = none := by simp [ptrMask]
  refine ⟨⟨hmask32, fun W hW => by simp [ptrMask, hW]⟩, ?_⟩
  intro w mbid base p σ env hkind hmb hlt hbw hfold hp
  have hacq : acquireMemBase w = (w, memBaseLoad mbid) :=
    acquireMemBase_of_some hmb
  have hbuild := buildSandboxInsts_general_nomask hmask32 (memBaseLoad mbid)
    (w.cur.getOperand 1) w.fresh
  have hsb := @sandboxPtrOperand_general 32 1 true w hfold
  rw [hacq] at hsb
  refine ⟨?_, ?_, ?_, ?_, ?_⟩
  · unfold dispatchInstr
    simp [hkind]
  · rw [hsb, hbuild]
  · intro inst hinst
    rw [hbuild] at hinst
    simp only [List.mem_cons, List.mem_singleton, List.not_mem_nil,
      or_false] at hinst
    rcases hinst with h | h | h | h <;> subst h <;> simp
  · rw [hsb, hbuild]
    rfl
  · have := evalChain_general_nomask hmask32 base p env σ mbid w.fresh
      (w.cur.getOperand 1) hlt hbw hp
    rw [hbuild] at this ⊢
    exact this

/-- Test fixture: a store of the constant 7 through a pointer argument. -/
def storePtrArg : Instr :=
  { id := 1, kind := InstKind.store,
    ops := [Value.constInt 32 7, Value.arg 1 (Ty.ptr (Ty.int 32))],
    ty := Ty.void }

/-- Test fixture: work state for the store, memory base already cached. -/
def c9Work : Work :=
  { doneBlocks := [], doneCur := [], cur := storePtrArg, suffix := [],
    restBlocks := [], memBase := some (memBaseLoad 0), fresh := 5 }

theorem w32_no_mask_store_rewrite_witness :
    dispatchInstr 32 c9Work = Except.ok (sandboxPtrOperand 32 1 true c9Work) ∧
    (sandboxPtrOperand 32 1 true c9Work).doneCur = [] ++
      [{ id := 5, kind := InstKind.ptrtoint,
         ops := [Value.arg 1 (Ty.ptr (Ty.int 32))], ty := Ty.int 32 },
       { id := 6, kind := InstKind.zext,
         ops := [Value.instRef 5 (Ty.int 32)], ty := Ty.int 64 },
       { id := 7, kind := InstKind.add,
         ops := [Instr.value (memBaseLoad 0),
                 Value.instRef 6 (Ty.int 64)],
         ty := Ty.int 64 },
       { id := 8, kind := InstKind.inttoptr,
         ops := [Value.instRef 7 (Ty.int 64)],
         ty := Ty.ptr (Ty.int 32) }] ∧
    (∀ inst ∈ (buildSandboxInsts 32 (memBaseLoad 0)
        (Value.arg 1 (Ty.ptr (Ty.int 32))) none 5).1,
      inst.kind ≠ InstKind.and) ∧
    (sandboxPtrOperand 32 1 true c9Work).cur =
      storePtrArg.setOperand 1 (Value.instRef 8 (Ty.ptr (Ty.int 32))) ∧
    evalChain 1000 (fun _ => 12) (fun _ => none)
      (memBaseLoad 0 ::
        (buildSandboxInsts 32 (memBaseLoad 0)
          (Value.arg 1 (Ty.ptr (Ty.int 32))) none 5).1)
      8 = some ((1000 + 12 % 2 ^ 32) % 2 ^ 64) :=
  (w32_no_mask_store_rewrite).2 c9Work 0 1000 12 (fun _ => none)
    (fun _ => 12) rfl rfl (by decide) (by decide) (by decide) rfl

/-! ## Claims C3 and C10: when the folded-offset optimization fires -/

/-- On the general path the first inserted instruction is the `ptrtoint`
cast of the original pointer operand. -/
theorem general_path_ptrtoint_head {W opNum : Nat} {fc : Bool} {w : Work}
    (hfold : recognizeFolded W w (w.cur.getOperand opNum) fc = none) :
    ∃ rest, (sandboxPtrOperand W opNum fc w).doneCur =
      (acquireMemBase w).1.doneCur ++
        ({ id := (acquireMemBase w).1.fresh, kind := InstKind.ptrtoint,
           ops := [w.cur.getOperand opNum], ty := Ty.int 32, dbg := none } ::
          rest) := by
  rw [sandboxPtrOperand_general hfold]
  rcases hpm : ptrMask W with _ | m
  · rw [buildSandboxInsts_general_nomask hpm]
    exact ⟨_, rfl⟩
  · rw [buildSandboxInsts_general_mask hpm]
    exact ⟨_, rfl⟩

/-- **C3.**  Under the recognized shape — the pointer operand is an
`inttoptr` of an `add` of type i32 whose second operand is a compile-time
constant — the folded-offset optimization fires exactly when the access is
a first-class value access, the (sign-extended) constant `C` is
non-negative, and `C` plus the store size of the accessed type does not
exceed the address-subspace size `2^W`; and whenever the pattern is not
recognized, the general path is taken (its first inserted instruction is a
`ptrtoint`) and the dispatch reports no error. -/
theorem folded_offset_applied_iff (W : Nat) (w : Work) (opNum : Nat)
    (isFCVA : Bool) (cid aid cw cbits : Nat) (τ t₂ : Ty) (cast op : Instr)
    (hptr : w.cur.getOperand opNum = Value.instRef cid (Ty.ptr τ))
    (hcast : findDef w cid = some cast)
    (hck : cast.kind = InstKind.inttoptr)
    (hc0 : cast.getOperand 0 = Value.instRef aid t₂)
    (hop : findDef w aid = some op)
    (hok : op.kind = InstKind.add)
    (hot : op.ty = Ty.int 32)
    (hconst : op.getOperand 1 = Value.constInt cw cbits) :
    ((recognizeFolded W w (w.cur.getOperand opNum) isFCVA).isSome ↔
      (isFCVA = true ∧ 0 ≤ constSExt cw cbits ∧
        constSExt cw cbits + typeStoreSize τ ≤ addressSubspaceSize W)) ∧
    (recognizeFolded W w (w.cur.getOperand 0) true = none →
      w.cur.kind = InstKind.load →
      dispatchInstr W w = Except.ok (sandboxPtrOperand W 0 true w) ∧
      ∃ rest, (sandboxPtrOperand W 0 true w).doneCur =
        (acquireMemBase w).1.doneCur ++
          ({ id := (acquireMemBase w).1.fresh, kind := InstKind.ptrtoint,
             ops := [w.cur.getOperand 0], ty := Ty.int 32, dbg := none } ::
            rest)) := by
  constructor
  · cases isFCVA
    · simp [recognizeFolded]
    · have hQ : recognizeFolded W w (w.cur.getOperand opNum) true =
          (if 0 ≤ constSExt cw cbits ∧
              constSExt cw cbits ≤
                (addressSubspaceSize W : Int) - typeStoreSize τ then
            some ⟨op.getOperand 0, constSExt cw cbits, cast, op⟩
          else none) := by
        rw [hptr]
        unfold recognizeFolded
        simp [hcast, hck, hc0, hop, hok, hot, hconst, Value.ty,
          Ty.pointerElementType]
      rw [hQ]
      by_cases hcond : 0 ≤ constSExt cw cbits ∧
          constSExt cw cbits ≤ (addressSubspaceSize W : Int) - typeStoreSize τ
      · rw [if_pos hcond]
        constructor
        · intro _
          exact ⟨rfl, hcond.1, by have := hcond.2; omega⟩
        · intro _
          rfl
      · rw [if_neg hcond]
        constructor
        · intro h
          exact absurd h (by simp)
        · intro hcontra
          refine absurd ⟨hcontra.2.1, ?_⟩ hcond
          have := hcontra.2.2
          omega
  · intro hfold hkind
    refine ⟨?_, general_path_ptrtoint_head hfold⟩
    unfold dispatchInstr
    simp [hkind]

/-- Test fixture, Scenario C shape: `%0 = add i32 %x, 16`. -/
def geAdd16 : Instr :=
  { id := 1, kind := InstKind.add,
    ops := [Value.arg 0 (Ty.int 32), Value.constInt 32 16], ty := Ty.int 32 }

/-- Test fixture: `%ptr = inttoptr i32 %0 to i32*`. -/
def geCast : Instr :=
  { id := 2, kind := InstKind.inttoptr,
    ops := [Value.instRef 1 (Ty.int 32)], ty := Ty.ptr (Ty.int 32) }

/-- Test fixture: `load i32, i32* %ptr`. -/
def geLoad : Instr :=
  { id := 3, kind := InstKind.load,
    ops := [Value.instRef 2 (Ty.ptr (Ty.int 32))], ty := Ty.int 32 }

/-- Test fixture: work state with the add and cast already walked past. -/
def c3Work : Work :=
  { doneBlocks := [], doneCur := [geAdd16, geCast], cur := geLoad,
    suffix := [], restBlocks := [], memBase := none, fresh := 10 }

theorem folded_offset_applied_iff_witness :
    ((recognizeFolded 10 c3Work (c3Work.cur.getOperand 0) true).isSome ↔
      (true = true ∧ 0 ≤ constSExt 32 16 ∧
        constSExt 32 16 + typeStoreSize (Ty.int 32) ≤
          addressSubspaceSize 10)) ∧
    (recognizeFolded 10 c3Work (c3Work.cur.getOperand 0) true = none →
      c3Work.cur.kind = InstKind.load →
      dispatchInstr 10 c3Work = Except.ok (sandboxPtrOperand 10 0 true c3Work) ∧
      ∃ rest, (sandboxPtrOperand 10 0 true c3Work).doneCur =
        (acquireMemBase c3Work).1.doneCur ++
          ({ id := (acquireMemBase c3Work).1.fresh,
             kind := InstKind.ptrtoint,
             ops := [c3Work.cur.getOperand 0], ty := Ty.int 32,
             dbg := none } :: rest)) :=
  folded_offset_applied_iff 10 c3Work 0 true 2 1 32 16 (Ty.int 32)
    (Ty.int 32) geCast geAdd16 rfl (by decide) rfl rfl (by decide) rfl rfl rfl

/-- **C10.**  The pattern recognizer is operand-position and type
sensitive: under the `inttoptr`-of-`add` shape, if the add's second
operand is not a compile-time integer constant (in particular for
`add C, X` with the constant in the first position and a non-constant
second operand), or if the add's type is not exactly i32, the recognizer
yields nothing, so the access always takes the general path (first
inserted instruction a `ptrtoint`) and no error is raised. -/
theorem folded_offset_position_width_sensitive (W : Nat) (w : Work)
    (opNum : Nat) (cid aid : Nat) (τ t₂ : Ty) (cast op : Instr)
    (hptr : w.cur.getOperand opNum = Value.instRef cid (Ty.ptr τ))
    (hcast : findDef w cid = some cast)
    (hck : cast.kind = InstKind.inttoptr)
    (hc0 : cast.getOperand 0 = Value.instRef aid t₂)
    (hop : findDef w aid = some op)
    (hok : op.kind = InstKind.add) :
    ((∀ cw cb, op.getOperand 1 ≠ Value.constInt cw cb) →
      recognizeFolded W w (w.cur.getOperand opNum) true = none) ∧
    (op.ty ≠ Ty.int 32 →
      recognizeFolded W w (w.cur.getOperand opNum) true = none) ∧
    (recognizeFolded W w (w.cur.getOperand 0) true = none →
      w.cur.kind = InstKind.load →
      dispatchInstr W w = Except.ok (sandboxPtrOperand W 0 true w) ∧
      ∃ rest, (sandboxPtrOperand W 0 true w).doneCur =
        (acquireMemBase w).1.doneCur ++
          ({ id := (acquireMemBase w).1.fresh, kind := InstKind.ptrtoint,
             ops := [w.cur.getOperand 0], ty := Ty.int 32, dbg := none } ::
            rest)) := by
  refine ⟨?_, ?_, ?_⟩
  · intro hnc
    rw [hptr]
    unfold recognizeFolded
    rcases hv : op.getOperand 1 with ⟨cw, cb⟩ | ⟨n, t⟩ | ⟨i, t⟩ | ⟨g, t⟩
    · exact absurd hv (hnc cw cb)
    all_goals simp [hcast, hck, hc0, hop, hok, hv]
  · intro hot
    rw [hptr]
    unfold recognizeFolded
    simp [hcast, hck, hc0, hop, hok, hot]
  · intro hfold hkind
    refine ⟨?_, general_path_ptrtoint_head hfold⟩
    unfold dispatchInstr
    simp [hkind]

/-- Test fixture: `add i32 16, %x` — constant in the first position. -/
def geAddConstFirst : Instr :=
  { id := 1, kind := InstKind.add,
    ops := [Value.constInt 32 16, Value.arg 0 (Ty.int 32)], ty := Ty.int 32 }

/-- Test fixture: work state whose load's pointer comes from
`inttoptr (add i32 16, %x)`. -/
def c10Work : Work :=
  { doneBlocks := [], doneCur := [geAddConstFirst, geCast], cur := geLoad,
    suffix := [], restBlocks := [], memBase := none, fresh := 10 }

theorem folded_offset_position_width_sensitive_witness :
    ((∀ cw cb, geAddConstFirst.getOperand 1 ≠ Value.constInt cw cb) →
      recognizeFolded 10 c10Work (c10Work.cur.getOperand 0) true = none) ∧
    (geAddConstFirst.ty ≠ Ty.int 32 →
      recognizeFolded 10 c10Work (c10Work.cur.getOperand 0) true = none) ∧
    (recognizeFolded 10 c10Work (c10Work.cur.getOperand 0) true = none →
      c10Work.cur.kind = InstKind.load →
      dispatchInstr 10 c10Work =
        Except.ok (sandboxPtrOperand 10 0 true c10Work) ∧
      ∃ rest, (sandboxPtrOperand 10 0 true c10Work).doneCur =
        (acquireMemBase c10Work).1.doneCur ++
          ({ id := (acquireMemBase c10Work).1.fresh,
             kind := InstKind.ptrtoint,
             ops := [c10Work.cur.getOperand 0], ty := Ty.int 32,
             dbg := none } :: rest)) :=
  folded_offset_position_width_sensitive 10 c10Work 0 2 1 (Ty.int 32)
    (Ty.int 32) geCast geAddConstFirst rfl (by decide) rfl rfl (by decide) rfl

/-! ## Claim C2: the general-path bounding invariant -/

/-- **C2.**  For a pointer operand rewritten by the general
(non-optimized) path: the new instructions are inserted immediately before
the instruction being rewritten (appended to the processed prefix, all
other parts of the state untouched), the operand is replaced by the final
`inttoptr`, and — provided the sandbox region fits the 64-bit address
space, `base + 2^W ≤ 2^64` — the rewritten address evaluates to exactly
`base + (p mod 2^32 &&& (1<<<W - 1))` when `W < 32` (no masking of the low
32 bits when `W = 32`), which always lies in `[base, base + 2^W)`. -/
theorem general_path_address_bounded (W : Nat) (w : Work) (opNum mbid : Nat)
    (base p : Nat) (σ : Nat → Option Nat) (env : Nat → Nat)
    (hW : W ≤ 32)
    (hmb : w.memBase = some (memBaseLoad mbid))
    (hfr : mbid < w.fresh)
    (hbw : Ty.bitWidth (w.cur.getOperand opNum).ty = 64)
    (hbase : base + 2 ^ W ≤ 2 ^ 64)
    (hfold : recognizeFolded W w (w.cur.getOperand opNum) true = none)
    (hp : evalValue (fun j => if j = mbid then some base else σ j) env
      (w.cur.getOperand opNum) = some p) :
    (sandboxPtrOperand W opNum true w).doneCur = w.doneCur ++
      (buildSandboxInsts W (memBaseLoad mbid) (w.cur.getOperand opNum) none
        w.fresh).1 ∧
    (sandboxPtrOperand W opNum true w).cur =
      w.cur.setOperand opNum
        (Instr.value (buildSandboxInsts W (memBaseLoad mbid)
          (w.cur.getOperand opNum) none w.fresh).2.2.1) ∧
    (sandboxPtrOperand W opNum true w).doneBlocks = w.doneBlocks ∧
    (sandboxPtrOperand W opNum true w).suffix = w.suffix ∧
    (sandboxPtrOperand W opNum true w).restBlocks = w.restBlocks ∧
    evalChain base env σ
      (memBaseLoad mbid :: (buildSandboxInsts W (memBaseLoad mbid)
        (w.cur.getOperand opNum) none w.fresh).1)
      (buildSandboxInsts W (memBaseLoad mbid) (w.cur.getOperand opNum) none
        w.fresh).2.2.1.id =
      some (base + (if W < 32 then p % 2 ^ 32 &&& ((1 <<< W) - 1)
                    else p % 2 ^ 32)) ∧
    base ≤ base + (if W < 32 then p % 2 ^ 32 &&& ((1 <<< W) - 1)
                   else p % 2 ^ 32) ∧
    base + (if W < 32 then p % 2 ^ 32 &&& ((1 <<< W) - 1) else p % 2 ^ 32) <
      base + 2 ^ W := by
  have hacq : acquireMemBase w = (w, memBaseLoad mbid) :=
    acquireMemBase_of_some hmb
  have hsb := @sandboxPtrOperand_general W opNum true w hfold
  rw [hacq] at hsb
  have hlow : (if W < 32 then p % 2 ^ 32 &&& ((1 <<< W) - 1)
      else p % 2 ^ 32) < 2 ^ W := by
    by_cases hW32 : W < 32
    · rw [if_pos hW32]
      have h₁ : p % 2 ^ 32 &&& ((1 <<< W) - 1) ≤ (1 <<< W) - 1 :=
        Nat.and_le_right
      have h₂ : (1 : Nat) <<< W = 2 ^ W := Nat.one_shiftLeft W
      have h₃ : 0 < 2 ^ W := Nat.pos_pow_of_pos W (by omega)
      omega
    · rw [if_neg hW32]
      have hW' : W = 32 := by omega
      subst hW'
      exact Nat.mod_lt _ (by norm_num)
  refine ⟨by rw [hsb], by rw [hsb], by rw [hsb], by rw [hsb], by rw [hsb],
    ?_, by omega, by omega⟩
  have hmod : (base + (if W < 32 then p % 2 ^ 32 &&& ((1 <<< W) - 1)
      else p % 2 ^ 32)) % 2 ^ 64 =
      base + (if W < 32 then p % 2 ^ 32 &&& ((1 <<< W) - 1)
      else p % 2 ^ 32) :=
    Nat.mod_eq_of_lt (by omega)
  by_cases hW32 : W < 32
  · have hm : ptrMask W = some ((1 <<< W) - 1) := by simp [ptrMask, hW32]
    have := evalChain_general_mask hm base p env σ mbid w.fresh
      (w.cur.getOperand opNum) hfr hbw hp
    rw [this, if_pos hW32] at *
    rw [hmod]
  · have hW' : W = 32 := by omega
    subst hW'
    have hm : ptrMask 32 = none := by simp [ptrMask]
    have := evalChain_general_nomask hm base p env σ mbid w.fresh
      (w.cur.getOperand opNum) hfr hbw hp
    rw [this, if_neg hW32] at *
    rw [hmod]

theorem general_path_address_bounded_witness :
    (sandboxPtrOperand 24 1 true c9Work).doneCur = c9Work.doneCur ++
      (buildSandboxInsts 24 (memBaseLoad 0) (c9Work.cur.getOperand 1) none
        c9Work.fresh).1 ∧
    (sandboxPtrOperand 24 1 true c9Work).cur =
      c9Work.cur.setOperand 1
        (Instr.value (buildSandboxInsts 24 (memBaseLoad 0)
          (c9Work.cur.getOperand 1) none c9Work.fresh).2.2.1) ∧
    (sandboxPtrOperand 24 1 true c9Work).doneBlocks = c9Work.doneBlocks ∧
    (sandboxPtrOperand 24 1 true c9Work).suffix = c9Work.suffix ∧
    (sandboxPtrOperand 24 1 true c9Work).restBlocks = c9Work.restBlocks ∧
    evalChain 1000 (fun _ => 12) (fun _ => none)
      (memBaseLoad 0 :: (buildSandboxInsts 24 (memBaseLoad 0)
        (c9Work.cur.getOperand 1) none c9Work.fresh).1)
      (buildSandboxInsts 24 (memBaseLoad 0) (c9Work.cur.getOperand 1) none
        c9Work.fresh).2.2.1.id =
      some (1000 + (if 24 < 32 then 12 % 2 ^ 32 &&& ((1 <<< 24) - 1)
                    else 12 % 2 ^ 32)) ∧
    1000 ≤ 1000 + (if 24 < 32 then 12 % 2 ^ 32 &&& ((1 <<< 24) - 1)
                   else 12 % 2 ^ 32) ∧
    1000 + (if 24 < 32 then 12 % 2 ^ 32 &&& ((1 <<< 24) - 1)
            else 12 % 2 ^ 32) < 1000 + 2 ^ 24 :=
  general_path_address_bounded 24 c9Work 1 0 1000 12 (fun _ => none)
    (fun _ => 12) (by decide) rfl (by decide) (by decide) (by decide)
    (by decide) rfl

/-! ## What a successful pattern match guarantees -/

theorem recognizeFolded_facts {W : Nat} {w : Work} {ptr : Value} {fc : Bool}
    {info : FoldInfo} (h : recognizeFolded W w ptr fc = some info) :
    fc = true ∧
    0 ≤ info.offset ∧
    info.offset ≤ (addressSubspaceSize W : Int) -
      typeStoreSize (Ty.pointerElementType (Value.ty ptr)) ∧
    info.redundantCast.kind = InstKind.inttoptr ∧
    info.redundantAdd.kind = InstKind.add ∧
    info.redundantAdd.ty = Ty.int 32 ∧
    info.truncated = info.redundantAdd.getOperand 0 ∧
    (∃ t₂, info.redundantCast.getOperand 0 =
      Value.instRef info.redundantAdd.id t₂) ∧
    (∃ cid t₁, ptr = Value.instRef cid t₁ ∧
      findDef w cid = some info.redundantCast ∧
      findDef w info.redundantAdd.id = some info.redundantAdd) := by
  cases fc with
  | false => simp [recognizeFolded] at h
  | true =>
    unfold recognizeFolded at h
    simp only [Bool.not_true, Bool.false_eq_true, if_false] at h
    cases hptr : ptr with
    | constInt pw pv => rw [hptr] at h; exact Option.noConfusion h
    | arg pn pt => rw [hptr] at h; exact Option.noConfusion h
    | globalRef g gt => rw [hptr] at h; exact Option.noConfusion h
    | instRef cid t₁ =>
      rw [hptr] at h
      dsimp only at h
      rcases hfd : findDef w cid with _ | cast
      · rw [hfd] at h; exact Option.noConfusion h
      rw [hfd] at h
      dsimp only at h
      by_cases hck : cast.kind = InstKind.inttoptr
      case neg => rw [if_neg hck] at h; exact Option.noConfusion h
      rw [if_pos hck] at h
      cases hc0 : cast.getOperand 0 with
      | constInt u v => rw [hc0] at h; exact Option.noConfusion h
      | arg u v => rw [hc0] at h; exact Option.noConfusion h
      | globalRef u v => rw [hc0] at h; exact Option.noConfusion h
      | instRef aid t₂ =>
        rw [hc0] at h
        dsimp only at h
        rcases hfd2 : findDef w aid with _ | op
        · rw [hfd2] at h; exact Option.noConfusion h
        rw [hfd2] at h
        dsimp only at h
        by_cases hopk : op.kind = InstKind.add ∧ op.ty = Ty.int 32
        case neg => rw [if_neg hopk] at h; exact Option.noConfusion h
        rw [if_pos hopk] at h
        cases hc1 : op.getOperand 1 with
        | arg u v => rw [hc1] at h; exact Option.noConfusion h
        | instRef u v => rw [hc1] at h; exact Option.noConfusion h
        | globalRef u v => rw [hc1] at h; exact Option.noConfusion h
        | constInt cw cbits =>
          rw [hc1] at h
          dsimp only at h
          by_cases hcond : 0 ≤ constSExt cw cbits ∧ constSExt cw cbits ≤
              (addressSubspaceSize W : Int) -
                (typeStoreSize (Ty.pointerElementType
                  (Value.ty (Value.instRef cid t₁))) : Int)
          case neg => rw [if_neg hcond] at h; exact Option.noConfusion h
          rw [if_pos hcond] at h
          have hinfo := (Option.some.inj h).symm
          subst hinfo
          have haid : op.id = aid := by
            have := List.find?_some hfd2
            exact of_decide_eq_true this
          refine ⟨rfl, hcond.1, ?_, hck, hopk.1, hopk.2, rfl,
            ⟨t₂, by rw [hc0, haid]⟩,
            ⟨cid, t₁, rfl, hfd, by rw [haid]; exact hfd2⟩⟩
          exact hcond.2

/-! ## Claim C4: the folded-offset address -/

/-- Test fixture: `%0 = add i32 %x, 0`. -/
def c4Add : Instr :=
  { id := 1, kind := InstKind.add,
    ops := [Value.arg 0 (Ty.int 32), Value.constInt 32 0], ty := Ty.int 32 }

/-- Test fixture: `%ptr = inttoptr i32 %0 to i8*`. -/
def c4Cast : Instr :=
  { id := 2, kind := InstKind.inttoptr,
    ops := [Value.instRef 1 (Ty.int 32)], ty := Ty.ptr (Ty.int 8) }

/-- Test fixture: `load i8, i8* %ptr`. -/
def c4Load : Instr :=
  { id := 3, kind := InstKind.load,
    ops := [Value.instRef 2 (Ty.ptr (Ty.int 8))], ty := Ty.int 8 }

/-- Test fixture: work state for the folded pattern at `W = 24`. -/
def c4Work : Work :=
  { doneBlocks := [], doneCur := [c4Add, c4Cast], cur := c4Load,
    suffix := [], restBlocks := [], memBase := some (memBaseLoad 0),
    fresh := 4 }

/-- Test fixture: the fold information recognized on `c4Work`. -/
def c4Info : FoldInfo :=
  { truncated := Value.arg 0 (Ty.int 32), offset := 0,
    redundantCast := c4Cast, redundantAdd := c4Add }

/-- Test fixture: runtime argument assignment with `%x = 0x01000000`. -/
def c4Env : Nat → Nat := fun _ => 2 ^ 24

/-- **C4, counterexample.**  At `W = 24`, with `%x = 0x01000000` and
`C = 0`, `base = 0`, the optimization applies, yet the rewritten address
evaluates to `0` — the mask `0x00FFFFFF` *is* applied to `%x` on the
optimized path — and not to `base + X + C = 0x01000000` as the claim's
unmasked formula requires. -/
theorem folded_unmasked_formula_cex :
    recognizeFolded 24 c4Work (c4Work.cur.getOperand 0) true = some c4Info ∧
    (sandboxPtrOperand 24 0 true c4Work).doneCur =
      (buildSandboxInsts 24 (memBaseLoad 0) (c4Work.cur.getOperand 0)
        (some c4Info) 4).1 ∧
    evalChain 0 c4Env (fun _ => none)
      (memBaseLoad 0 :: (buildSandboxInsts 24 (memBaseLoad 0)
        (c4Work.cur.getOperand 0) (some c4Info) 4).1)
      (buildSandboxInsts 24 (memBaseLoad 0) (c4Work.cur.getOperand 0)
        (some c4Info) 4).2.2.1.id = some 0 ∧
    (0 : Nat) ≠ 0 + 2 ^ 24 + 0 := by
  refine ⟨by decide, by decide, by decide, by decide⟩

/-- **C4, amended.**  When the folded-offset optimization applies, only the
`ptrtoint` step is skipped (no `ptrtoint` is inserted); the mask is still
applied to the 32-bit value `X` when `W < 32`, so the resulting address
equals `base + (X &&& mask) + C` (and `base + X + C` when `W = 32`); given
`C ≤ 2^W` (a consequence of the recognizer's `C + typesize ≤ 2^W` bound)
and a sandbox-plus-guard region that fits the address space, the address
never reaches `base + 2·2^W`. -/
theorem folded_path_masked_address (W : Nat) (w : Work) (opNum mbid : Nat)
    (base x : Nat) (σ : Nat → Option Nat) (env : Nat → Nat) (info : FoldInfo)
    (hW : W ≤ 32)
    (hmb : w.memBase = some (memBaseLoad mbid))
    (hfr : mbid < w.fresh)
    (hbw : Ty.bitWidth (w.cur.getOperand opNum).ty = 64)
    (hbase : base + 2 ^ W + 2 ^ W ≤ 2 ^ 64)
    (hfold : recognizeFolded W w (w.cur.getOperand opNum) true = some info)
    (hts : typeStoreSize (Ty.pointerElementType
      (Value.ty (w.cur.getOperand opNum))) ≤ 2 ^ W)
    (hx : evalValue (fun j => if j = mbid then some base else σ j) env
      info.truncated = some x)
    (hx32 : x < 2 ^ 32) :
    (∀ inst ∈ (buildSandboxInsts W (memBaseLoad mbid)
        (w.cur.getOperand opNum) (some info) w.fresh).1,
      inst.kind ≠ InstKind.ptrtoint) ∧
    evalChain base env σ
      (memBaseLoad mbid :: (buildSandboxInsts W (memBaseLoad mbid)
        (w.cur.getOperand opNum) (some info) w.fresh).1)
      (buildSandboxInsts W (memBaseLoad mbid) (w.cur.getOperand opNum)
        (some info) w.fresh).2.2.1.id =
      some (base + (if W < 32 then x &&& ((1 <<< W) - 1) else x) +
        info.offset.toNat) ∧
    base + (if W < 32 then x &&& ((1 <<< W) - 1) else x) +
      info.offset.toNat < base + 2 ^ W + 2 ^ W := by
  have hfacts := recognizeFolded_facts hfold
  have hCle : info.offset.toNat ≤ 2 ^ W := by
    have h₁ := hfacts.2.2.1
    rw [Int.toNat_le]
    calc info.offset ≤ (addressSubspaceSize W : Int) -
        typeStoreSize (Ty.pointerElementType
          (Value.ty (w.cur.getOperand opNum))) := h₁
      _ ≤ (addressSubspaceSize W : Int) := by omega
      _ = ((2 ^ W : Nat) : Int) := by simp [addressSubspaceSize]
  have hlow : (if W < 32 then x &&& ((1 <<< W) - 1) else x) < 2 ^ W := by
    by_cases hW32 : W < 32
    · rw [if_pos hW32]
      have h₁ : x &&& ((1 <<< W) - 1) ≤ (1 <<< W) - 1 := Nat.and_le_right
      have h₂ : (1 : Nat) <<< W = 2 ^ W := Nat.one_shiftLeft W
      have h₃ : 0 < 2 ^ W := Nat.pos_pow_of_pos W (by omega)
      omega
    · rw [if_neg hW32]
      have hW' : W = 32 := by omega
      subst hW'
      exact hx32
  have hbound : base + (if W < 32 then x &&& ((1 <<< W) - 1) else x) +
      info.offset.toNat < base + 2 ^ W + 2 ^ W := by
    have h₃ : 0 < 2 ^ W := Nat.pos_pow_of_pos W (by omega)
    omega
  refine ⟨?_, ?_, hbound⟩
  · intro inst hinst
    rcases hpm : ptrMask W with _ | m
    · rw [buildSandboxInsts_folded_nomask hpm] at hinst
      simp only [List.mem_cons, List.not_mem_nil, or_false] at hinst
      rcases hinst with h | h | h | h <;> subst h <;> simp
    · rw [buildSandboxInsts_folded_mask hpm] at hinst
      simp only [List.mem_cons, List.not_mem_nil, or_false] at hinst
      rcases hinst with h | h | h | h | h <;> subst h <;> simp
  · by_cases hW32 : W < 32
    · have hm : ptrMask W = some ((1 <<< W) - 1) := by simp [ptrMask, hW32]
      have heval := evalChain_folded_mask hm base x env σ mbid w.fresh
        (w.cur.getOperand opNum) info hfr hbw hx
      rw [heval, if_pos hW32]
      rw [if_pos hW32] at hbound
      exact congrArg some (Nat.mod_eq_of_lt (by omega))
    · have hW' : W = 32 := by omega
      subst hW'
      have hm : ptrMask 32 = none := by simp [ptrMask]
      have heval := evalChain_folded_nomask hm base x env σ mbid w.fresh
        (w.cur.getOperand opNum) info hfr hbw hx
      rw [heval, if_neg hW32]
      rw [if_neg hW32] at hbound
      exact congrArg some (Nat.mod_eq_of_lt (by omega))

theorem folded_path_masked_address_witness :
    (∀ inst ∈ (buildSandboxInsts 24 (memBaseLoad 0)
        (c4Work.cur.getOperand 0) (some c4Info) c4Work.fresh).1,
      inst.kind ≠ InstKind.ptrtoint) ∧
    evalChain 1000 (fun _ => 5) (fun _ => none)
      (memBaseLoad 0 :: (buildSandboxInsts 24 (memBaseLoad 0)
        (c4Work.cur.getOperand 0) (some c4Info) c4Work.fresh).1)
      (buildSandboxInsts 24 (memBaseLoad 0) (c4Work.cur.getOperand 0)
        (some c4Info) c4Work.fresh).2.2.1.id =
      some (1000 + (if 24 < 32 then 5 &&& ((1 <<< 24) - 1) else 5) +
        c4Info.offset.toNat) ∧
    1000 + (if 24 < 32 then 5 &&& ((1 <<< 24) - 1) else 5) +
      c4Info.offset.toNat < 1000 + 2 ^ 24 + 2 ^ 24 :=
  folded_path_masked_address 24 c4Work 0 0 1000 5 (fun _ => none)
    (fun _ => 5) c4Info (by decide) rfl (by decide) (by decide) (by decide)
    (by decide) (by decide) rfl (by decide)

/-! ## Presence and use tracking through the cleanup steps -/

/-- Presence of an instruction in the function's block lists (the cursor
spot excluded: `eraseFromParent` only ever targets listed instructions). -/
def Work.memInst (w : Work) (inst : Instr) : Prop :=
  inst ∈ w.doneBlocks.flatten ++ w.doneCur ++ w.suffix ++ w.restBlocks.flatten

/-- Is some instruction with id `i` present in the function's block
lists? -/
def Work.contains (w : Work) (i : Nat) : Bool :=
  (w.doneBlocks.flatten ++ w.doneCur ++ w.suffix ++ w.restBlocks.flatten).any
    (fun inst => inst.id = i)

theorem memInst_contains {w : Work} {inst : Instr} (h : w.memInst inst) :
    w.contains inst.id = true := by
  simp only [Work.contains, List.any_eq_true, decide_eq_true_eq]
  exact ⟨inst, h, rfl⟩

theorem mem_allInstrs_iff (w : Work) (inst : Instr) :
    inst ∈ allInstrs w ↔ w.memInst inst ∨ inst = w.cur := by
  unfold allInstrs Work.memInst
  simp only [List.mem_append, List.mem_singleton]
  tauto

theorem usedBy_of_ref {w : Work} {inst : Instr} {v : Value} {i : Nat}
    (hm : inst ∈ allInstrs w) (hv : v ∈ inst.ops)
    (hr : v.refsId i = true) : usedBy w i = true := by
  simp only [usedBy, List.any_eq_true]
  exact ⟨inst, hm, v, hv, hr⟩

theorem mem_flatten_map_filter {α : Type} (p : α → Bool)
    (bs : List (List α)) (a : α) :
    a ∈ (bs.map (fun b => b.filter p)).flatten ↔
      a ∈ bs.flatten ∧ p a = true := by
  simp only [List.mem_flatten, List.mem_map]
  constructor
  · rintro ⟨b, ⟨b₀, hb₀, rfl⟩, hm⟩
    have h := List.mem_filter.mp hm
    exact ⟨⟨b₀, hb₀, h.1⟩, h.2⟩
  · rintro ⟨⟨b₀, hb₀, hm⟩, hp⟩
    exact ⟨b₀.filter p, ⟨b₀, hb₀, rfl⟩, List.mem_filter.mpr ⟨hm, hp⟩⟩

theorem memInst_eraseInstr_iff (w : Work) (i : Nat) (inst : Instr) :
    (eraseInstr w i).memInst inst ↔ w.memInst inst ∧ inst.id ≠ i := by
  unfold Work.memInst eraseInstr
  simp only [List.mem_append, mem_flatten_map_filter, List.mem_filter,
    decide_eq_true_eq]
  tauto

theorem eraseInstr_cur (w : Work) (i : Nat) : (eraseInstr w i).cur = w.cur :=
  rfl

theorem usedBy_eraseInstr_false {w : Work} {i j : Nat}
    (h : usedBy w j = false) : usedBy (eraseInstr w i) j = false := by
  rw [Bool.eq_false_iff] at h ⊢
  intro hc
  apply h
  simp only [usedBy, List.any_eq_true] at hc ⊢
  obtain ⟨inst, hm, v, hv, hr⟩ := hc
  rw [mem_allInstrs_iff] at hm
  refine ⟨inst, ?_, v, hv, hr⟩
  rw [mem_allInstrs_iff]
  rcases hm with hm | hm
  · exact Or.inl ((memInst_eraseInstr_iff w i inst).mp hm).1
  · exact Or.inr hm

theorem contains_eraseInstr_self (w : Work) (i : Nat) :
    (eraseInstr w i).contains i = false := by
  rw [Bool.eq_false_iff]
  intro hc
  simp only [Work.contains, List.any_eq_true, decide_eq_true_eq] at hc
  obtain ⟨inst, hmem, hid⟩ := hc
  have hm : (eraseInstr w i).memInst inst := hmem
  exact absurd hid ((memInst_eraseInstr_iff w i inst).mp hm).2

theorem contains_eraseInstr_false {w : Work} {i j : Nat}
    (h : w.contains j = false) : (eraseInstr w i).contains j = false := by
  rw [Bool.eq_false_iff] at h ⊢
  intro hc
  apply h
  simp only [Work.contains, List.any_eq_true, decide_eq_true_eq] at hc ⊢
  obtain ⟨inst, hmem, hid⟩ := hc
  exact ⟨inst, ((memInst_eraseInstr_iff w i inst).mp hmem).1, hid⟩

theorem memInst_eraseInstr {w : Work} {inst : Instr} {i : Nat}
    (h : w.memInst inst) (hne : inst.id ≠ i) :
    (eraseInstr w i).memInst inst :=
  (memInst_eraseInstr_iff w i inst).mpr ⟨h, hne⟩

theorem memInst_copyDebugAt {w : Work} {inst : Instr} {i : Nat}
    {d : Option Nat} (h : w.memInst inst) (hne : inst.id ≠ i) :
    (copyDebugAt w i d).memInst inst := by
  unfold Work.memInst at h ⊢
  unfold copyDebugAt
  simp only [List.mem_append, List.mem_map] at h ⊢
  rcases h with (((h | h) | h) | h)
  · exact Or.inl (Or.inl (Or.inl h))
  · refine Or.inl (Or.inl (Or.inr ⟨inst, h, ?_⟩))
    rw [if_neg hne]
  · exact Or.inl (Or.inr h)
  · exact Or.inr h

theorem mem_doneCur_copyDebugAt_self {w : Work} {inst : Instr} {i : Nat}
    {d : Option Nat} (h : inst ∈ w.doneCur) (hid : inst.id = i) :
    ({ inst with dbg := d } : Instr) ∈ (copyDebugAt w i d).doneCur := by
  unfold copyDebugAt
  simp only [List.mem_map]
  exact ⟨inst, h, by rw [if_pos hid]⟩

theorem mem_doneCur_copyDebugAt_other {w : Work} {inst : Instr} {i : Nat}
    {d : Option Nat} (h : inst ∈ w.doneCur) (hne : inst.id ≠ i) :
    inst ∈ (copyDebugAt w i d).doneCur := by
  unfold copyDebugAt
  simp only [List.mem_map]
  exact ⟨inst, h, by rw [if_neg hne]⟩

theorem mem_doneCur_eraseInstr {w : Work} {inst : Instr} {i : Nat}
    (h : inst ∈ w.doneCur) (hne : inst.id ≠ i) :
    inst ∈ (eraseInstr w i).doneCur := by
  unfold eraseInstr
  exact List.mem_filter.mpr ⟨h, by simpa using hne⟩

theorem mem_doneCur_eraseIfDead {w : Work} {inst : Instr} {i : Nat}
    (h : inst ∈ w.doneCur) (hne : inst.id ≠ i) :
    inst ∈ (eraseIfDead w i).doneCur := by
  unfold eraseIfDead
  split
  · exact h
  · exact mem_doneCur_eraseInstr h hne

theorem memInst_eraseIfDead {w : Work} {inst : Instr} {i : Nat}
    (h : w.memInst inst) (hne : inst.id ≠ i) :
    (eraseIfDead w i).memInst inst := by
  unfold eraseIfDead
  split
  · exact h
  · exact memInst_eraseInstr h hne

theorem eraseIfDead_cur (w : Work) (i : Nat) : (eraseIfDead w i).cur = w.cur := by
  unfold eraseIfDead
  split <;> rfl

theorem usedBy_copyDebugAt (w : Work) (i : Nat) (d : Option Nat) (j : Nat) :
    usedBy (copyDebugAt w i d) j = usedBy w j := by
  unfold usedBy allInstrs copyDebugAt
  simp only [List.any_append, List.any_map]
  have hfun : ((fun inst : Instr => inst.ops.any fun v => v.refsId j) ∘
      fun inst : Instr =>
        if inst.id = i then { inst with dbg := d } else inst) =
      (fun inst : Instr => inst.ops.any fun v => v.refsId j) := by
    funext inst
    simp only [Function.comp]
    split <;> rfl
  rw [hfun]

theorem contains_copyDebugAt (w : Work) (i : Nat) (d : Option Nat) (j : Nat) :
    (copyDebugAt w i d).contains j = w.contains j := by
  unfold Work.contains copyDebugAt
  simp only [List.any_append, List.any_map]
  have hfun : ((fun inst : Instr => decide (inst.id = j)) ∘
      fun inst : Instr =>
        if inst.id = i then { inst with dbg := d } else inst) =
      (fun inst : Instr => decide (inst.id = j)) := by
    funext inst
    simp only [Function.comp]
    split <;> rfl
  rw [hfun]

theorem contains_eraseIfDead_false {w : Work} {i j : Nat}
    (h : w.contains j = false) : (eraseIfDead w i).contains j = false := by
  unfold eraseIfDead
  split
  · exact h
  · exact contains_eraseInstr_false h

theorem usedBy_eraseIfDead_false {w : Work} {i j : Nat}
    (h : usedBy w j = false) : usedBy (eraseIfDead w i) j = false := by
  unfold eraseIfDead
  split
  · exact h
  · exact usedBy_eraseInstr_false h

/-! ## Claim C8: debug-metadata transfer and ordered dead-code removal -/

theorem memInst_update_doneCur {w : Work} {inst : Instr} (l : List Instr)
    (c : Instr) (f : Nat) (h : w.memInst inst) :
    ({ w with
        doneCur := w.doneCur ++ l,
        cur := c,
        fresh := f } : Work).memInst inst := by
  unfold Work.memInst at h ⊢
  simp only [List.mem_append] at h ⊢
  tauto

theorem eraseIfDead_of_dead {w : Work} {i : Nat} (h : usedBy w i = false) :
    eraseIfDead w i = eraseInstr w i := by
  unfold eraseIfDead
  rw [h]
  simp

theorem eraseIfDead_of_used {w : Work} {i : Nat} (h : usedBy w i = true) :
    eraseIfDead w i = w := by
  unfold eraseIfDead
  rw [h]
  simp

theorem buildSandboxInsts_folded_parts (W : Nat) (mb : Instr) (ptr : Value)
    (info : FoldInfo) (fresh : Nat) :
    (buildSandboxInsts W mb ptr (some info) fresh).2.1 ∈
      (buildSandboxInsts W mb ptr (some info) fresh).1 ∧
    (buildSandboxInsts W mb ptr (some info) fresh).2.2.1 ∈
      (buildSandboxInsts W mb ptr (some info) fresh).1 ∧
    fresh ≤ (buildSandboxInsts W mb ptr (some info) fresh).2.1.id ∧
    fresh ≤ (buildSandboxInsts W mb ptr (some info) fresh).2.2.1.id ∧
    (buildSandboxInsts W mb ptr (some info) fresh).2.1.id ≠
      (buildSandboxInsts W mb ptr (some info) fresh).2.2.1.id := by
  rcases hpm : ptrMask W with _ | m
  · rw [buildSandboxInsts_folded_nomask hpm]
    refine ⟨by simp, by simp, by simp, by simp, by simp⟩
  · rw [buildSandboxInsts_folded_mask hpm]
    refine ⟨by simp, by simp, by simp, by simp, by simp⟩

/-- **C8.**  After the folded-offset optimization rewrites an access
(`sandboxPtrOperand` with a recognized pattern): the `AddOffset`
instruction in the output carries the original add's debug location and the
new `inttoptr` carries the original cast's (both copies happen before any
removal, so they survive in the output even when the originals are
erased); the original cast is erased exactly when it has no remaining
uses right after the operand replacement; neither the cast nor the add is
ever erased while still used in the output; and because the cast is
checked and removed before the add, the output never retains the cast
while dropping the add it references. -/
theorem folded_cleanup_debug_and_removal (W : Nat) (w : Work)
    (opNum mbid : Nat) (info : FoldInfo)
    (newInsts : List Instr) (ao sp : Instr) (fr' : Nat) (w₂ : Work)
    (hmb : w.memBase = some (memBaseLoad mbid))
    (hfold : recognizeFolded W w (w.cur.getOperand opNum) true = some info)
    (hbuild : buildSandboxInsts W (memBaseLoad mbid) (w.cur.getOperand opNum)
      (some info) w.fresh = (newInsts, ao, sp, fr'))
    (hw₂ : w₂ = { w with
                  doneCur := w.doneCur ++ newInsts,
                  cur := w.cur.setOperand opNum (Instr.value sp),
                  fresh := fr' })
    (hfr : ∀ inst, w.memInst inst ∨ inst = w.cur → inst.id < w.fresh)
    (hca : w.memInst info.redundantCast)
    (hau : w.memInst info.redundantAdd)
    (hne : info.redundantAdd.id ≠ info.redundantCast.id) :
    (∃ inst ∈ (sandboxPtrOperand W opNum true w).doneCur,
      inst.id = ao.id ∧ inst.dbg = info.redundantAdd.dbg) ∧
    (∃ inst ∈ (sandboxPtrOperand W opNum true w).doneCur,
      inst.id = sp.id ∧ inst.dbg = info.redundantCast.dbg) ∧
    (usedBy w₂ info.redundantCast.id = false →
      (sandboxPtrOperand W opNum true w).contains info.redundantCast.id =
        false) ∧
    (usedBy (sandboxPtrOperand W opNum true w) info.redundantCast.id = true →
      (sandboxPtrOperand W opNum true w).contains info.redundantCast.id =
        true) ∧
    (usedBy (sandboxPtrOperand W opNum true w) info.redundantAdd.id = true →
      (sandboxPtrOperand W opNum true w).contains info.redundantAdd.id =
        true) ∧
    ((sandboxPtrOperand W opNum true w).contains info.redundantCast.id =
        true →
      (sandboxPtrOperand W opNum true w).contains info.redundantAdd.id =
        true) := by
  have hacq : acquireMemBase w = (w, memBaseLoad mbid) :=
    acquireMemBase_of_some hmb
  have hsb := @sandboxPtrOperand_folded W opNum true w _ hfold
  rw [hacq] at hsb
  rw [hbuild] at hsb
  dsimp only at hsb
  rw [← hw₂] at hsb
  -- hsb : sandboxPtrOperand W opNum true w = cleanupFolded w₂ ao.id sp.id info
  have hparts := buildSandboxInsts_folded_parts W (memBaseLoad mbid)
    (w.cur.getOperand opNum) info w.fresh
  rw [hbuild] at hparts
  dsimp only at hparts
  obtain ⟨haoMem, hspMem, haoGe, hspGe, haoNeSp⟩ := hparts
  have hfacts := recognizeFolded_facts hfold
  have hcastLt : info.redundantCast.id < w.fresh := hfr _ (Or.inl hca)
  have haddLt : info.redundantAdd.id < w.fresh := hfr _ (Or.inl hau)
  have haoNeCast : info.redundantCast.id ≠ ao.id := by omega
  have haoNeAdd : info.redundantAdd.id ≠ ao.id := by omega
  have hspNeCast : info.redundantCast.id ≠ sp.id := by omega
  have hspNeAdd : info.redundantAdd.id ≠ sp.id := by omega
  -- the cleanup states
  rw [hsb]
  unfold cleanupFolded
  set wd2 := copyDebugAt (copyDebugAt w₂ ao.id info.redundantAdd.dbg) sp.id
    info.redundantCast.dbg with hwd2
  -- the two copies survive in the output
  have hmemW₂ : ∀ inst ∈ newInsts, inst ∈ w₂.doneCur := by
    intro inst h
    rw [hw₂]
    exact List.mem_append_right _ h
  have hmemCast : wd2.memInst info.redundantCast := by
    apply memInst_copyDebugAt _ hspNeCast
    apply memInst_copyDebugAt _ haoNeCast
    rw [hw₂]
    exact memInst_update_doneCur _ _ _ hca
  have hmemAdd : wd2.memInst info.redundantAdd := by
    apply memInst_copyDebugAt _ hspNeAdd
    apply memInst_copyDebugAt _ haoNeAdd
    rw [hw₂]
    exact memInst_update_doneCur _ _ _ hau
  refine ⟨?_, ?_, ?_, ?_, ?_, ?_⟩
  · -- AddOffset carries the add's debug location
    refine ⟨{ ao with dbg := info.redundantAdd.dbg },
      ?_, rfl, rfl⟩
    refine mem_doneCur_eraseIfDead ?_ (Ne.symm haoNeAdd)
    refine mem_doneCur_eraseIfDead ?_ (Ne.symm haoNeCast)
    refine mem_doneCur_copyDebugAt_other ?_ haoNeSp
    exact mem_doneCur_copyDebugAt_self (hmemW₂ ao haoMem) rfl
  · -- SandboxedPtr carries the cast's debug location
    refine ⟨{ sp with dbg := info.redundantCast.dbg },
      ?_, rfl, rfl⟩
    refine mem_doneCur_eraseIfDead ?_ (Ne.symm hspNeAdd)
    refine mem_doneCur_eraseIfDead ?_ (Ne.symm hspNeCast)
    refine mem_doneCur_copyDebugAt_self ?_ rfl
    exact mem_doneCur_copyDebugAt_other (hmemW₂ sp hspMem)
      (Ne.symm haoNeSp)
  · -- dead cast is erased
    intro hdead
    have hdead₂ : usedBy wd2 info.redundantCast.id = false := by
      rw [hwd2, usedBy_copyDebugAt, usedBy_copyDebugAt]
      exact hdead
    rw [eraseIfDead_of_dead hdead₂]
    exact contains_eraseIfDead_false
      (contains_eraseInstr_self wd2 info.redundantCast.id)
  · -- the cast is erased only if unused
    intro hused
    rcases hu : usedBy wd2 info.redundantCast.id with _ | _
    · exfalso
      rw [eraseIfDead_of_dead hu] at hused
      have hdead : usedBy (eraseIfDead
          (eraseInstr wd2 info.redundantCast.id) info.redundantAdd.id)
          info.redundantCast.id = false :=
        usedBy_eraseIfDead_false (usedBy_eraseInstr_false hu)
      rw [hdead] at hused
      exact Bool.noConfusion hused
    · rw [eraseIfDead_of_used hu]
      apply memInst_contains
      exact memInst_eraseIfDead hmemCast hne.symm
  · -- the add is erased only if unused
    intro hused
    rcases hu : usedBy (eraseIfDead wd2 info.redundantCast.id)
        info.redundantAdd.id with _ | _
    · exfalso
      rw [eraseIfDead_of_dead hu] at hused
      rw [usedBy_eraseInstr_false hu] at hused
      exact Bool.noConfusion hused
    · rw [eraseIfDead_of_used hu]
      apply memInst_contains
      exact memInst_eraseIfDead hmemAdd hne
  · -- removal order: a surviving cast keeps its add alive
    intro hkept
    rcases hu : usedBy wd2 info.redundantCast.id with _ | _
    · exfalso
      rw [eraseIfDead_of_dead hu] at hkept
      rw [contains_eraseIfDead_false
        (contains_eraseInstr_self wd2 info.redundantCast.id)] at hkept
      exact Bool.noConfusion hkept
    · rw [eraseIfDead_of_used hu] at hkept ⊢
      -- the cast still references the add, so the add is not dead
      obtain ⟨t₂, hc0⟩ := hfacts.2.2.2.2.2.2.2.1
      have hops : Value.instRef info.redundantAdd.id t₂ ∈
          info.redundantCast.ops := by
        rcases hcops : info.redundantCast.ops with _ | ⟨a, rest⟩
        · rw [Instr.getOperand, hcops] at hc0
          exact absurd hc0 (by simp)
        · rw [Instr.getOperand, hcops] at hc0
          simp only [List.getD] at hc0
          simp only [List.mem_cons]
          left
          simpa using hc0.symm
      have huse : usedBy wd2 info.redundantAdd.id = true :=
        usedBy_of_ref ((mem_allInstrs_iff wd2 info.redundantCast).mpr
          (Or.inl hmemCast)) hops (by simp [Value.refsId])
      rw [eraseIfDead_of_used huse]
      exact memInst_contains hmemAdd

/-- Test fixture: the instructions built on the folded path for `c4Work`
at `W = 24`. -/
def c8NewInsts : List Instr :=
  [{ id := 4, kind := InstKind.and,
     ops := [Value.arg 0 (Ty.int 32), Value.constInt 32 ((1 <<< 24) - 1)],
     ty := Ty.int 32 },
   { id := 5, kind := InstKind.zext, ops := [Value.instRef 4 (Ty.int 32)],
     ty := Ty.int 64 },
   { id := 6, kind := InstKind.add,
     ops := [Instr.value (memBaseLoad 0), Value.instRef 5 (Ty.int 64)],
     ty := Ty.int 64 },
   { id := 7, kind := InstKind.add,
     ops := [Value.instRef 6 (Ty.int 64), Value.constInt 64 0],
     ty := Ty.int 64 },
   { id := 8, kind := InstKind.inttoptr, ops := [Value.instRef 7 (Ty.int 64)],
     ty := Ty.ptr (Ty.int 8) }]

/-- Test fixture: the `AddOffset` instruction for `c4Work`. -/
def c8Ao : Instr :=
  { id := 7, kind := InstKind.add,
    ops := [Value.instRef 6 (Ty.int 64), Value.constInt 64 0],
    ty := Ty.int 64 }

/-- Test fixture: the `SandboxedPtr` instruction for `c4Work`. -/
def c8Sp : Instr :=
  { id := 8, kind := InstKind.inttoptr, ops := [Value.instRef 7 (Ty.int 64)],
    ty := Ty.ptr (Ty.int 8) }

/-- Test fixture: `c4Work` right after the operand replacement. -/
def c8W₂ : Work :=
  { c4Work with
    doneCur := c4Work.doneCur ++ c8NewInsts,
    cur := c4Work.cur.setOperand 0 (Instr.value c8Sp),
    fresh := 9 }

theorem folded_cleanup_debug_and_removal_witness :
    (∃ inst ∈ (sandboxPtrOperand 24 0 true c4Work).doneCur,
      inst.id = c8Ao.id ∧ inst.dbg = c4Info.redundantAdd.dbg) ∧
    (∃ inst ∈ (sandboxPtrOperand 24 0 true c4Work).doneCur,
      inst.id = c8Sp.id ∧ inst.dbg = c4Info.redundantCast.dbg) ∧
    (usedBy c8W₂ c4Info.redundantCast.id = false →
      (sandboxPtrOperand 24 0 true c4Work).contains
        c4Info.redundantCast.id = false) ∧
    (usedBy (sandboxPtrOperand 24 0 true c4Work) c4Info.redundantCast.id =
        true →
      (sandboxPtrOperand 24 0 true c4Work).contains
        c4Info.redundantCast.id = true) ∧
    (usedBy (sandboxPtrOperand 24 0 true c4Work) c4Info.redundantAdd.id =
        true →
      (sandboxPtrOperand 24 0 true c4Work).contains
        c4Info.redundantAdd.id = true) ∧
    ((sandboxPtrOperand 24 0 true c4Work).contains
        c4Info.redundantCast.id = true →
      (sandboxPtrOperand 24 0 true c4Work).contains
        c4Info.redundantAdd.id = true) :=
  folded_cleanup_debug_and_removal 24 c4Work 0 0 c4Info c8NewInsts c8Ao c8Sp
    9 c8W₂ rfl (by decide) (by decide) rfl
    (by
      intro inst h
      rcases h with h | h
      · simp only [Work.memInst, c4Work, List.mem_append, List.mem_cons,
          List.not_mem_nil, List.flatten_nil, or_false, false_or] at h
        rcases h with rfl | rfl <;> decide
      · subst h
        decide)
    (by unfold Work.memInst; decide)
    (by unfold Work.memInst; decide)
    (by decide)

/-! ## Claim C6: one memory-base load per function -/

/-- Is the instruction a load of the `__sfi_memory_base` global (the shape
of the instruction `sandboxPtrOperand` synthesizes)? -/
def isMemBaseLoad (inst : Instr) : Bool :=
  match inst.kind, inst.ops with
  | InstKind.load, [Value.globalRef g _] => g = memBaseName
  | _, _ => false

/-- The instruction kinds whose dispatch arm calls `sandboxPtrOperand`
(the sandboxing sites). -/
def isSandboxSite (inst : Instr) : Bool :=
  match inst.kind with
  | .load | .store | .memcpy | .memmove | .memset => true
  | .intrinsic .naclAtomicLoad | .intrinsic .naclAtomicStore
  | .intrinsic .naclAtomicRmw | .intrinsic .naclAtomicCmpxchg
  | .intrinsic .naclAtomicIsLockFree => true
  | _ => false

/-- Number of synthesized (id at least `fresh0`) memory-base loads in a
function body. -/
def synthMemBaseCount (fresh0 : Nat) (blocks : List Block) : Nat :=
  (blocks.flatten.filter
    (fun inst => isMemBaseLoad inst && decide (fresh0 ≤ inst.id))).length

/-- All instructions of a driver-loop state. -/
def FnWork.instrs (s : FnWork) : List Instr :=
  s.doneBlocks.flatten ++ s.doneCur ++ s.rest ++ s.restBlocks.flatten

theorem isMemBaseLoad_memBaseLoad (i : Nat) :
    isMemBaseLoad (memBaseLoad i) = true := by
  rfl

/-! ### Field preservation through the sandboxing steps -/

theorem cleanupFolded_memBase (w : Work) (a b : Nat) (info : FoldInfo) :
    (cleanupFolded w a b info).memBase = w.memBase := by
  unfold cleanupFolded eraseIfDead
  split <;> split <;> rfl

theorem cleanupFolded_fresh (w : Work) (a b : Nat) (info : FoldInfo) :
    (cleanupFolded w a b info).fresh = w.fresh := by
  unfold cleanupFolded eraseIfDead
  split <;> split <;> rfl

theorem acquireMemBase_fresh_le (w : Work) :
    w.fresh ≤ (acquireMemBase w).1.fresh := by
  unfold acquireMemBase
  cases w.memBase <;> simp

theorem buildSandboxInsts_fresh_le (W : Nat) (mb : Instr) (ptr : Value)
    (fold : Option FoldInfo) (fresh : Nat) :
    fresh ≤ (buildSandboxInsts W mb ptr fold fresh).2.2.2 := by
  rcases fold with _ | info <;> rcases hpm : ptrMask W with _ | m
  · rw [buildSandboxInsts_general_nomask hpm]; dsimp only; omega
  · rw [buildSandboxInsts_general_mask hpm]; dsimp only; omega
  · rw [buildSandboxInsts_folded_nomask hpm]; dsimp only; omega
  · rw [buildSandboxInsts_folded_mask hpm]; dsimp only; omega

theorem sandboxPtrOperand_memBase (W opNum : Nat) (fc : Bool) (w : Work) :
    (sandboxPtrOperand W opNum fc w).memBase =
      (acquireMemBase w).1.memBase := by
  simp only [sandboxPtrOperand]
  split
  · rfl
  · rw [cleanupFolded_memBase]

theorem sandboxPtrOperand_memBase_some {W opNum : Nat} {fc : Bool} {w : Work}
    {mb : Instr} (h : w.memBase = some mb) :
    (sandboxPtrOperand W opNum fc w).memBase = some mb := by
  rw [sandboxPtrOperand_memBase, acquireMemBase_of_some h]
  exact h

theorem sandboxPtrOperand_memBase_none {W opNum : Nat} {fc : Bool} {w : Work}
    (h : w.memBase = none) :
    (sandboxPtrOperand W opNum fc w).memBase =
      some (memBaseLoad w.fresh) := by
  rw [sandboxPtrOperand_memBase, acquireMemBase_of_none h]

theorem sandboxPtrOperand_fresh_le (W opNum : Nat) (fc : Bool) (w : Work) :
    w.fresh ≤ (sandboxPtrOperand W opNum fc w).fresh := by
  simp only [sandboxPtrOperand]
  have h₁ := acquireMemBase_fresh_le w
  have h₂ := buildSandboxInsts_fresh_le W (acquireMemBase w).2
    ((acquireMemBase w).1.cur.getOperand opNum)
    (recognizeFolded W (acquireMemBase w).1
      ((acquireMemBase w).1.cur.getOperand opNum) fc)
    (acquireMemBase w).1.fresh
  split
  · simp only []
    omega
  · rw [cleanupFolded_fresh]
    simp only []
    omega

theorem acquireMemBase_fresh_of_none {w : Work} (h : w.memBase = none) :
    (acquireMemBase w).1.fresh = w.fresh + 1 := by
  rw [acquireMemBase_of_none h]

theorem sandboxPtrOperand_fresh_acquire_le (W opNum : Nat) (fc : Bool)
    (w : Work) :
    (acquireMemBase w).1.fresh ≤ (sandboxPtrOperand W opNum fc w).fresh := by
  simp only [sandboxPtrOperand]
  have h₂ := buildSandboxInsts_fresh_le W (acquireMemBase w).2
    ((acquireMemBase w).1.cur.getOperand opNum)
    (recognizeFolded W (acquireMemBase w).1
      ((acquireMemBase w).1.cur.getOperand opNum) fc)
    (acquireMemBase w).1.fresh
  split
  · exact h₂
  · rw [cleanupFolded_fresh]
    exact h₂

theorem sandboxPtrOperand_fresh_lt_of_none {W opNum : Nat} {fc : Bool}
    {w : Work} (h : w.memBase = none) :
    w.fresh < (sandboxPtrOperand W opNum fc w).fresh := by
  have h₁ := sandboxPtrOperand_fresh_acquire_le W opNum fc w
  rw [acquireMemBase_fresh_of_none h] at h₁
  omega

theorem sandboxLenOperand_memBase (W opNum : Nat) (w : Work) :
    (sandboxLenOperand W opNum w).memBase = w.memBase := by
  unfold sandboxLenOperand
  split <;> rfl

theorem sandboxLenOperand_fresh_le (W opNum : Nat) (w : Work) :
    w.fresh ≤ (sandboxLenOperand W opNum w).fresh := by
  unfold sandboxLenOperand
  split <;> simp

/-! ### Dispatch-level facts for the memory-base cache -/

theorem dispatchInstr_nonsite {W : Nat} {w : Work}
    (h : isSandboxSite w.cur = false) :
    dispatchInstr W w = Except.ok w ∨
      dispatchInstr W w = Except.error fatalMessage := by
  unfold dispatchInstr
  cases hk : w.cur.kind
  case intrinsic iid =>
    cases iid
    case otherIntrinsic n =>
      simp only [hk]
      split
      · right; rfl
      · left; rfl
    all_goals simp [isSandboxSite, hk] at h
  case load => simp [isSandboxSite, hk] at h
  case store => simp [isSandboxSite, hk] at h
  case memcpy => simp [isSandboxSite, hk] at h
  case memmove => simp [isSandboxSite, hk] at h
  case memset => simp [isSandboxSite, hk] at h
  case ptrtoint => left; simp only [hk]
  case bitcast => left; simp only [hk]
  all_goals
    simp only [hk]
    split
    · right; rfl
    · left; rfl

theorem dispatchInstr_fresh_le {W : Nat} {w w' : Work}
    (h : dispatchInstr W w = Except.ok w') : w.fresh ≤ w'.fresh := by
  unfold dispatchInstr at h
  split at h <;> try split at h <;> try split at h
  all_goals
    first
    | exact Except.noConfusion h
    | (injection h with h; subst h;
       first
       | exact le_refl _
       | exact sandboxPtrOperand_fresh_le _ _ _ _
       | exact le_trans (sandboxPtrOperand_fresh_le _ _ _ _)
           (sandboxLenOperand_fresh_le _ _ _)
       | exact le_trans (le_trans (sandboxPtrOperand_fresh_le _ _ _ _)
           (sandboxPtrOperand_fresh_le _ _ _ _))
           (sandboxLenOperand_fresh_le _ _ _))

theorem dispatchInstr_memBase_some {W : Nat} {w w' : Work} {mb : Instr}
    (hmb : w.memBase = some mb) (h : dispatchInstr W w = Except.ok w') :
    w'.memBase = some mb := by
  unfold dispatchInstr at h
  split at h <;> try split at h <;> try split at h
  all_goals
    first
    | exact Except.noConfusion h
    | (injection h with h; subst h;
       first
       | exact hmb
       | exact sandboxPtrOperand_memBase_some hmb
       | (rw [sandboxLenOperand_memBase]
          exact sandboxPtrOperand_memBase_some hmb)
       | (rw [sandboxLenOperand_memBase]
          exact sandboxPtrOperand_memBase_some
            (sandboxPtrOperand_memBase_some hmb)))

theorem dispatchInstr_memBase_create {W : Nat} {w w' : Work}
    (hmb : w.memBase = none) (hsite : isSandboxSite w.cur = true)
    (h : dispatchInstr W w = Except.ok w') :
    w'.memBase = some (memBaseLoad w.fresh) ∧ w.fresh < w'.fresh := by
  unfold dispatchInstr at h
  cases hk : w.cur.kind <;> simp only [hk] at h
  case load =>
    injection h with h
    subst h
    exact ⟨sandboxPtrOperand_memBase_none hmb,
      sandboxPtrOperand_fresh_lt_of_none hmb⟩
  case store =>
    injection h with h
    subst h
    exact ⟨sandboxPtrOperand_memBase_none hmb,
      sandboxPtrOperand_fresh_lt_of_none hmb⟩
  case memcpy =>
    injection h with h
    subst h
    have h₁ := @sandboxPtrOperand_memBase_none W 0 false _ hmb
    have h₂ := @sandboxPtrOperand_fresh_lt_of_none W 0 false _ hmb
    have h₃ := sandboxPtrOperand_fresh_le W 1 false
      (sandboxPtrOperand W 0 false w)
    have h₄ := sandboxLenOperand_fresh_le W 2
      (sandboxPtrOperand W 1 false (sandboxPtrOperand W 0 false w))
    refine ⟨?_, by omega⟩
    rw [sandboxLenOperand_memBase]
    exact sandboxPtrOperand_memBase_some h₁
  case memmove =>
    injection h with h
    subst h
    have h₁ := @sandboxPtrOperand_memBase_none W 0 false _ hmb
    have h₂ := @sandboxPtrOperand_fresh_lt_of_none W 0 false _ hmb
    have h₃ := sandboxPtrOperand_fresh_le W 1 false
      (sandboxPtrOperand W 0 false w)
    have h₄ := sandboxLenOperand_fresh_le W 2
      (sandboxPtrOperand W 1 false (sandboxPtrOperand W 0 false w))
    refine ⟨?_, by omega⟩
    rw [sandboxLenOperand_memBase]
    exact sandboxPtrOperand_memBase_some h₁
  case memset =>
    injection h with h
    subst h
    have h₁ := @sandboxPtrOperand_memBase_none W 0 false _ hmb
    have h₂ := @sandboxPtrOperand_fresh_lt_of_none W 0 false _ hmb
    have h₄ := sandboxLenOperand_fresh_le W 2 (sandboxPtrOperand W 0 false w)
    refine ⟨?_, by omega⟩
    rw [sandboxLenOperand_memBase]
    exact h₁
  case intrinsic iid =>
    cases iid
    case naclAtomicLoad =>
      injection h with h
      subst h
      exact ⟨sandboxPtrOperand_memBase_none hmb,
        sandboxPtrOperand_fresh_lt_of_none hmb⟩
    case naclAtomicCmpxchg =>
      injection h with h
      subst h
      exact ⟨sandboxPtrOperand_memBase_none hmb,
        sandboxPtrOperand_fresh_lt_of_none hmb⟩
    case naclAtomicStore =>
      injection h with h
      subst h
      exact ⟨sandboxPtrOperand_memBase_none hmb,
        sandboxPtrOperand_fresh_lt_of_none hmb⟩
    case naclAtomicRmw =>
      injection h with h
      subst h
      exact ⟨sandboxPtrOperand_memBase_none hmb,
        sandboxPtrOperand_fresh_lt_of_none hmb⟩
    case naclAtomicIsLockFree =>
      injection h with h
      subst h
      exact ⟨sandboxPtrOperand_memBase_none hmb,
        sandboxPtrOperand_fresh_lt_of_none hmb⟩
    case otherIntrinsic n =>
      simp [isSandboxSite, hk] at hsite
  all_goals simp [isSandboxSite, hk] at hsite

/-! ### Membership transfer: every instruction of a transformed state is an
original one (same id and kind) or a synthesized one (fresh id, not a load) -/

/-- The id/kind signature of an instruction. -/
def sig (inst : Instr) : Nat × InstKind :=
  (inst.id, inst.kind)

/-- Transfer relation between instruction lists tagged with their
fresh-id watermark. -/
def TransferOn (a b : List Instr × Nat) : Prop :=
  ∀ inst' ∈ b.1,
    (∃ inst ∈ a.1, inst'.id = inst.id ∧ inst'.kind = inst.kind) ∨
    (a.2 ≤ inst'.id ∧ inst'.id < b.2 ∧ inst'.kind ≠ InstKind.load)

theorem transferOn_trans {a b c : List Instr × Nat} (hf₁ : a.2 ≤ b.2)
    (hf₂ : b.2 ≤ c.2) (h₁ : TransferOn a b) (h₂ : TransferOn b c) :
    TransferOn a c := by
  intro inst' hm
  rcases h₂ inst' hm with ⟨inst, hmem, hid, hk⟩ | ⟨hlo, hhi, hnl⟩
  · rcases h₁ inst hmem with ⟨inst₀, hmem₀, hid₀, hk₀⟩ | ⟨hlo, hhi, hnl⟩
    · exact Or.inl ⟨inst₀, hmem₀, hid.trans hid₀, hk.trans hk₀⟩
    · refine Or.inr ⟨?_, ?_, ?_⟩
      · omega
      · omega
      · rw [hk]; exact hnl
  · exact Or.inr ⟨le_trans hf₁ hlo, hhi, hnl⟩

/-- Transfer between two `Work` states. -/
def Transfer (w w' : Work) : Prop :=
  TransferOn (allInstrs w, w.fresh) (allInstrs w', w'.fresh)

theorem transfer_refl (w : Work) : Transfer w w :=
  fun inst' hm => Or.inl ⟨inst', hm, rfl, rfl⟩

theorem transfer_trans {w₁ w₂ w₃ : Work} (hf₁ : w₁.fresh ≤ w₂.fresh)
    (hf₂ : w₂.fresh ≤ w₃.fresh) (h₁ : Transfer w₁ w₂) (h₂ : Transfer w₂ w₃) :
    Transfer w₁ w₃ :=
  transferOn_trans hf₁ hf₂ h₁ h₂

theorem allInstrs_acquire (w : Work) :
    allInstrs (acquireMemBase w).1 = allInstrs w := by
  unfold allInstrs acquireMemBase
  cases w.memBase <;> rfl

theorem mem_allInstrs_update {w : Work} (l : List Instr) (c : Instr) (f : Nat)
    {inst : Instr} :
    inst ∈ allInstrs
      { w with
        doneCur := w.doneCur ++ l
        cur := c
        fresh := f } ↔
      w.memInst inst ∨ inst ∈ l ∨ inst = c := by
  unfold allInstrs Work.memInst
  simp only [List.mem_append, List.mem_singleton]
  tauto

/-- Every instruction inserted by `buildSandboxInsts` has a fresh id and
is not a load. -/
theorem buildSandboxInsts_members (W : Nat) (mb : Instr) (ptr : Value)
    (fold : Option FoldInfo) (fresh : Nat) :
    ∀ inst ∈ (buildSandboxInsts W mb ptr fold fresh).1,
      fresh ≤ inst.id ∧
      inst.id < (buildSandboxInsts W mb ptr fold fresh).2.2.2 ∧
      inst.kind ≠ InstKind.load := by
  cases fold with
  | none =>
      cases hm : ptrMask W with
      | none =>
          rw [buildSandboxInsts_general_nomask hm]
          intro inst h
          simp only [List.mem_cons, List.not_mem_nil, or_false] at h
          rcases h with rfl | rfl | rfl | rfl <;>
            refine ⟨?_, ?_, ?_⟩ <;> dsimp only <;> first | omega | decide
      | some m =>
          rw [buildSandboxInsts_general_mask hm]
          intro inst h
          simp only [List.mem_cons, List.not_mem_nil, or_false] at h
          rcases h with rfl | rfl | rfl | rfl | rfl <;>
            refine ⟨?_, ?_, ?_⟩ <;> dsimp only <;> first | omega | decide
  | some info =>
      cases hm : ptrMask W with
      | none =>
          rw [buildSandboxInsts_folded_nomask hm]
          intro inst h
          simp only [List.mem_cons, List.not_mem_nil, or_false] at h
          rcases h with rfl | rfl | rfl | rfl <;>
            refine ⟨?_, ?_, ?_⟩ <;> dsimp only <;> first | omega | decide
      | some m =>
          rw [buildSandboxInsts_folded_mask hm]
          intro inst h
          simp only [List.mem_cons, List.not_mem_nil, or_false] at h
          rcases h with rfl | rfl | rfl | rfl | rfl <;>
            refine ⟨?_, ?_, ?_⟩ <;> dsimp only <;> first | omega | decide

/-- Transfer into the state that appends the new instructions before the
cursor, replaces the cursor in place and bumps the fresh counter. -/
theorem transfer_update_of (w₀ w : Work) (l : List Instr) (c : Instr)
    (f : Nat) (heq : allInstrs w = allInstrs w₀)
    (hids : ∀ inst ∈ l,
      w₀.fresh ≤ inst.id ∧ inst.id < f ∧ inst.kind ≠ InstKind.load)
    (hc : c.id = w₀.cur.id ∧ c.kind = w₀.cur.kind) :
    Transfer w₀ { w with doneCur := w.doneCur ++ l, cur := c, fresh := f } := by
  intro inst' hm
  rw [mem_allInstrs_update] at hm
  rcases hm with hm | hm | rfl
  · refine Or.inl ⟨inst', ?_, rfl, rfl⟩
    rw [← heq, mem_allInstrs_iff]
    exact Or.inl hm
  · exact Or.inr (hids inst' hm)
  · exact Or.inl ⟨w₀.cur, (mem_allInstrs_iff w₀ w₀.cur).mpr (Or.inr rfl),
      hc.1, hc.2⟩

/-! ### Id/kind preservation of the cleanup steps -/

/-- Every instruction of `w'` keeps the id and kind of an instruction of
`w` (debug-location rewrites and erasures only). -/
def IdKindSub (w w' : Work) : Prop :=
  ∀ inst' ∈ allInstrs w',
    ∃ inst ∈ allInstrs w, inst'.id = inst.id ∧ inst'.kind = inst.kind

theorem idKindSub_of_sig {w w' : Work}
    (h : ∀ p ∈ (allInstrs w').map sig, p ∈ (allInstrs w).map sig) :
    IdKindSub w w' := by
  intro inst' hm
  have h' := h (sig inst') (List.mem_map_of_mem sig hm)
  obtain ⟨inst, hmem, hsig⟩ := List.mem_map.mp h'
  refine ⟨inst, hmem, ?_, ?_⟩
  · exact (congrArg Prod.fst hsig).symm
  · exact (congrArg Prod.snd hsig).symm

theorem sig_copyDebugAt (w : Work) (i : Nat) (d : Option Nat) :
    (allInstrs (copyDebugAt w i d)).map sig = (allInstrs w).map sig := by
  unfold allInstrs copyDebugAt
  have h : sig ∘ (fun inst : Instr =>
      if inst.id = i then { inst with dbg := d } else inst) = sig := by
    funext inst
    simp only [Function.comp]
    split <;> rfl
  simp only [List.map_append, List.map_map, h]

theorem idKindSub_refl (w : Work) : IdKindSub w w :=
  fun inst' hm => ⟨inst', hm, rfl, rfl⟩

theorem idKindSub_trans {w₁ w₂ w₃ : Work} (h₁ : IdKindSub w₁ w₂)
    (h₂ : IdKindSub w₂ w₃) : IdKindSub w₁ w₃ := by
  intro inst' hm
  obtain ⟨inst, hmem, hid, hk⟩ := h₂ inst' hm
  obtain ⟨inst₀, hmem₀, hid₀, hk₀⟩ := h₁ inst hmem
  exact ⟨inst₀, hmem₀, hid.trans hid₀, hk.trans hk₀⟩

theorem idKindSub_copyDebugAt (w : Work) (i : Nat) (d : Option Nat) :
    IdKindSub w (copyDebugAt w i d) :=
  idKindSub_of_sig (fun p hp => by rw [sig_copyDebugAt] at hp; exact hp)

theorem allInstrs_eraseInstr_subset {w : Work} {i : Nat} :
    ∀ x ∈ allInstrs (eraseInstr w i), x ∈ allInstrs w := by
  intro x hx
  rw [mem_allInstrs_iff] at hx ⊢
  rcases hx with hx | hx
  · exact Or.inl ((memInst_eraseInstr_iff w i x).mp hx).1
  · exact Or.inr (hx.trans (eraseInstr_cur w i))

theorem idKindSub_eraseInstr (w : Work) (i : Nat) :
    IdKindSub w (eraseInstr w i) :=
  fun inst' hm => ⟨inst', allInstrs_eraseInstr_subset inst' hm, rfl, rfl⟩

theorem idKindSub_eraseIfDead (w : Work) (i : Nat) :
    IdKindSub w (eraseIfDead w i) := by
  unfold eraseIfDead
  split
  · exact idKindSub_refl w
  · exact idKindSub_eraseInstr w i

theorem cleanupFolded_idKindSub (w : Work) (a b : Nat) (info : FoldInfo) :
    IdKindSub w (cleanupFolded w a b info) := by
  unfold cleanupFolded
  exact idKindSub_trans
    (idKindSub_trans
      (idKindSub_trans (idKindSub_copyDebugAt _ _ _)
        (idKindSub_copyDebugAt _ _ _))
      (idKindSub_eraseIfDead _ _))
    (idKindSub_eraseIfDead _ _)

theorem transfer_idKindSub {w₀ w₂ w₃ : Work} (h₁ : Transfer w₀ w₂)
    (h₂ : IdKindSub w₂ w₃) (hf : w₃.fresh = w₂.fresh) : Transfer w₀ w₃ := by
  intro inst' hm
  obtain ⟨inst, hmem, hid, hk⟩ := h₂ inst' hm
  rcases h₁ inst hmem with ⟨inst₀, hmem₀, hid₀, hk₀⟩ | ⟨hlo, hhi, hnl⟩
  · exact Or.inl ⟨inst₀, hmem₀, hid.trans hid₀, hk.trans hk₀⟩
  · refine Or.inr ⟨?_, ?_, ?_⟩
    · omega
    · omega
    · rw [hk]; exact hnl

/-! ### Transfer through the sandboxing primitives -/

theorem sandboxLenOperand_transfer (W opNum : Nat) (w : Work) :
    Transfer w (sandboxLenOperand W opNum w) := by
  unfold sandboxLenOperand
  cases hm : ptrMask W with
  | none => exact transfer_refl w
  | some m =>
      refine transfer_update_of w w _ _ _ rfl ?_ ⟨rfl, rfl⟩
      intro inst hmem
      simp only [List.mem_singleton] at hmem
      subst hmem
      refine ⟨?_, ?_, ?_⟩ <;> dsimp only <;> first | omega | decide

theorem sandboxPtrOperand_transfer (W opNum : Nat) (fc : Bool) (w : Work) :
    Transfer w (sandboxPtrOperand W opNum fc w) := by
  cases hfold : recognizeFolded W w (w.cur.getOperand opNum) fc with
  | none =>
      rw [sandboxPtrOperand_general hfold]
      refine transfer_update_of w (acquireMemBase w).1 _ _ _
        (allInstrs_acquire w) ?_ ⟨rfl, rfl⟩
      intro inst hmem
      have h := buildSandboxInsts_members W (acquireMemBase w).2
        (w.cur.getOperand opNum) none (acquireMemBase w).1.fresh inst hmem
      exact ⟨le_trans (acquireMemBase_fresh_le w) h.1, h.2.1, h.2.2⟩
  | some info =>
      rw [sandboxPtrOperand_folded hfold]
      refine transfer_idKindSub ?_ (cleanupFolded_idKindSub _ _ _ info)
        (cleanupFolded_fresh _ _ _ info)
      refine transfer_update_of w (acquireMemBase w).1 _ _ _
        (allInstrs_acquire w) ?_ ⟨rfl, rfl⟩
      intro inst hmem
      have h := buildSandboxInsts_members W (acquireMemBase w).2
        (w.cur.getOperand opNum) (some info) (acquireMemBase w).1.fresh
        inst hmem
      exact ⟨le_trans (acquireMemBase_fresh_le w) h.1, h.2.1, h.2.2⟩

theorem dispatchInstr_transfer {W : Nat} {w w' : Work}
    (h : dispatchInstr W w = Except.ok w') : Transfer w w' := by
  unfold dispatchInstr at h
  cases hk : w.cur.kind <;> simp only [hk] at h
  case load =>
    injection h with h; subst h
    exact sandboxPtrOperand_transfer W 0 true w
  case store =>
    injection h with h; subst h
    exact sandboxPtrOperand_transfer W 1 true w
  case memcpy =>
    injection h with h; subst h
    exact transfer_trans (sandboxPtrOperand_fresh_le W 0 false w)
      (le_trans (sandboxPtrOperand_fresh_le W 1 false _)
        (sandboxLenOperand_fresh_le W 2 _))
      (sandboxPtrOperand_transfer W 0 false w)
      (transfer_trans (sandboxPtrOperand_fresh_le W 1 false _)
        (sandboxLenOperand_fresh_le W 2 _)
        (sandboxPtrOperand_transfer W 1 false _)
        (sandboxLenOperand_transfer W 2 _))
  case memmove =>
    injection h with h; subst h
    exact transfer_trans (sandboxPtrOperand_fresh_le W 0 false w)
      (le_trans (sandboxPtrOperand_fresh_le W 1 false _)
        (sandboxLenOperand_fresh_le W 2 _))
      (sandboxPtrOperand_transfer W 0 false w)
      (transfer_trans (sandboxPtrOperand_fresh_le W 1 false _)
        (sandboxLenOperand_fresh_le W 2 _)
        (sandboxPtrOperand_transfer W 1 false _)
        (sandboxLenOperand_transfer W 2 _))
  case memset =>
    injection h with h; subst h
    exact transfer_trans (sandboxPtrOperand_fresh_le W 0 false w)
      (sandboxLenOperand_fresh_le W 2 _)
      (sandboxPtrOperand_transfer W 0 false w)
      (sandboxLenOperand_transfer W 2 _)
  case intrinsic iid =>
    cases iid
    case naclAtomicLoad =>
      injection h with h; subst h
      exact sandboxPtrOperand_transfer W 0 true w
    case naclAtomicCmpxchg =>
      injection h with h; subst h
      exact sandboxPtrOperand_transfer W 0 true w
    case naclAtomicStore =>
      injection h with h; subst h
      exact sandboxPtrOperand_transfer W 1 true w
    case naclAtomicRmw =>
      injection h with h; subst h
      exact sandboxPtrOperand_transfer W 1 true w
    case naclAtomicIsLockFree =>
      injection h with h; subst h
      exact sandboxPtrOperand_transfer W 1 true w
    case otherIntrinsic n =>
      dsimp only at h
      split at h
      · exact Except.noConfusion h
      · injection h with h; subst h
        exact transfer_refl w
  case ptrtoint =>
    injection h with h; subst h
    exact transfer_refl w
  case bitcast =>
    injection h with h; subst h
    exact transfer_refl w
  all_goals
    split at h
  all_goals
    first
    | exact Except.noConfusion h
    | (injection h with h; subst h; exact transfer_refl w)

/-! ### Unfolding equations of the driver loop -/

theorem processFn_eq_err {W : Nat} {s : FnWork} {inst : Instr}
    {rest : List Instr} {e : String} (h₁ : s.rest = inst :: rest)
    (h₂ : dispatchInstr W (toWork s inst rest) = Except.error e) :
    processFn W s = Except.error e := by
  rw [processFn.eq_def]
  split
  · rename_i inst' rest' heq
    rw [h₁] at heq
    injection heq with e₁ e₂
    subst e₁
    subst e₂
    split
    · rename_i e' heq₂
      rw [h₂] at heq₂
      injection heq₂ with e₃
      rw [e₃]
    · rename_i w heq₂
      rw [h₂] at heq₂
      exact Except.noConfusion heq₂
  · rename_i heq
    rw [h₁] at heq
    exact List.noConfusion heq

theorem processFn_eq_cons {W : Nat} {s : FnWork} {inst : Instr}
    {rest : List Instr} {w : Work} (h₁ : s.rest = inst :: rest)
    (h₂ : dispatchInstr W (toWork s inst rest) = Except.ok w) :
    processFn W s = processFn W (ofWork w) := by
  rw [processFn.eq_def]
  split
  · rename_i inst' rest' heq
    rw [h₁] at heq
    injection heq with e₁ e₂
    subst e₁
    subst e₂
    split
    · rename_i e' heq₂
      rw [h₂] at heq₂
      exact Except.noConfusion heq₂
    · rename_i w' heq₂
      rw [h₂] at heq₂
      injection heq₂ with e₃
      rw [e₃]
  · rename_i heq
    rw [h₁] at heq
    exact List.noConfusion heq

theorem processFn_eq_nil {W : Nat} {s : FnWork} (h₁ : s.rest = [])
    (h₃ : s.restBlocks = []) : processFn W s = Except.ok s := by
  rw [processFn.eq_def]
  split
  · rename_i inst' rest' heq
    rw [h₁] at heq
    exact List.noConfusion heq
  · split
    · rfl
    · rename_i b bs heq₃
      rw [h₃] at heq₃
      exact List.noConfusion heq₃

theorem processFn_eq_block {W : Nat} {s : FnWork} {b : Block}
    {bs : List Block} (h₁ : s.rest = []) (h₃ : s.restBlocks = b :: bs) :
    processFn W s =
      processFn W
        { doneBlocks := s.doneBlocks ++ [s.doneCur], doneCur := [],
          rest := b, restBlocks := bs, memBase := s.memBase,
          fresh := s.fresh } := by
  rw [processFn.eq_def]
  split
  · rename_i inst' rest' heq
    rw [h₁] at heq
    exact List.noConfusion heq
  · split
    · rename_i heq₃
      rw [h₃] at heq₃
      exact List.noConfusion heq₃
    · rename_i b' bs' heq₃
      rw [h₃] at heq₃
      injection heq₃ with e₁ e₂
      subst e₁
      subst e₂
      rfl

theorem instrs_toWork (s : FnWork) (inst : Instr) (rest : List Instr)
    (h : s.rest = inst :: rest) :
    allInstrs (toWork s inst rest) = FnWork.instrs s := by
  unfold allInstrs toWork FnWork.instrs
  rw [h]
  simp

theorem instrs_ofWork (w : Work) : FnWork.instrs (ofWork w) = allInstrs w := by
  unfold allInstrs ofWork FnWork.instrs
  simp

theorem instrs_block_advance (s : FnWork) (b : Block) (bs : List Block)
    (h₁ : s.rest = []) (h₃ : s.restBlocks = b :: bs) :
    FnWork.instrs
      { doneBlocks := s.doneBlocks ++ [s.doneCur], doneCur := [],
        rest := b, restBlocks := bs, memBase := s.memBase,
        fresh := s.fresh } = FnWork.instrs s := by
  unfold FnWork.instrs
  rw [h₁, h₃]
  simp

/-- Transfer between two driver-loop states. -/
def FnTransfer (s s' : FnWork) : Prop :=
  TransferOn (FnWork.instrs s, s.fresh) (FnWork.instrs s', s'.fresh)

/-- The collected invariants of the driver loop: the fresh counter grows,
the loop consumes the whole function, a cached memory base is preserved,
and every instruction of the result is an original one or a synthesized
non-load with a fresh id. -/
theorem processFn_invariants {W : Nat} (s : FnWork) : ∀ (s' : FnWork),
    processFn W s = Except.ok s' →
    s.fresh ≤ s'.fresh ∧ s'.rest = [] ∧ s'.restBlocks = [] ∧
    (∀ mb, s.memBase = some mb → s'.memBase = some mb) ∧
    FnTransfer s s' := by
  induction s using processFn.induct W with
  | case1 x inst rest h₁ e h₂ =>
      intro s' h
      rw [processFn_eq_err h₁ h₂] at h
      exact Except.noConfusion h
  | case2 x inst rest h₁ w h₂ ih =>
      intro s' h
      rw [processFn_eq_cons h₁ h₂] at h
      obtain ⟨ihf, ihr, ihrb, ihmb, iht⟩ := ih s' h
      have hfr : x.fresh ≤ w.fresh := dispatchInstr_fresh_le h₂
      have hfr₂ : w.fresh ≤ s'.fresh := ihf
      refine ⟨le_trans hfr hfr₂, ihr, ihrb, ?_, ?_⟩
      · intro mb hmb
        exact ihmb mb (dispatchInstr_memBase_some hmb h₂)
      · have ht₁ : FnTransfer x (ofWork w) := by
          unfold FnTransfer
          rw [instrs_ofWork, ← instrs_toWork x inst rest h₁]
          exact dispatchInstr_transfer h₂
        exact transferOn_trans hfr hfr₂ ht₁ iht
  | case3 x h₁ h₃ =>
      intro s' h
      rw [processFn_eq_nil h₁ h₃] at h
      injection h with h
      subst h
      exact ⟨le_refl _, h₁, h₃, fun mb hmb => hmb,
        fun inst' hm => Or.inl ⟨inst', hm, rfl, rfl⟩⟩
  | case4 x h₁ b bs h₃ ih =>
      intro s' h
      rw [processFn_eq_block h₁ h₃] at h
      obtain ⟨ihf, ihr, ihrb, ihmb, iht⟩ := ih s' h
      refine ⟨ihf, ihr, ihrb, ihmb, ?_⟩
      unfold FnTransfer at iht ⊢
      rw [← instrs_block_advance x b bs h₁ h₃]
      exact iht

/-- If the cache is empty and no sandboxing site remains, the loop never
creates the memory-base load. -/
theorem processFn_memBase_none {W : Nat} (s : FnWork) : ∀ (s' : FnWork),
    processFn W s = Except.ok s' → s.memBase = none →
    (∀ inst ∈ s.rest ++ s.restBlocks.flatten, isSandboxSite inst = false) →
    s'.memBase = none := by
  induction s using processFn.induct W with
  | case1 x inst rest h₁ e h₂ =>
      intro s' h _ _
      rw [processFn_eq_err h₁ h₂] at h
      exact Except.noConfusion h
  | case2 x inst rest h₁ w h₂ ih =>
      intro s' h hmb hns
      rw [processFn_eq_cons h₁ h₂] at h
      have hsite : isSandboxSite inst = false := by
        apply hns
        rw [h₁]
        simp
      rcases @dispatchInstr_nonsite W (toWork x inst rest) hsite
        with hid | hid
      · have hw := hid.symm.trans h₂
        injection hw with hw
        subst hw
        apply ih s' h hmb
        intro i hi
        apply hns
        rw [h₁]
        simp only [List.cons_append, List.mem_cons]
        exact Or.inr (by simpa using hi)
      · rw [hid] at h₂
        exact Except.noConfusion h₂
  | case3 x h₁ h₃ =>
      intro s' h hmb _
      rw [processFn_eq_nil h₁ h₃] at h
      injection h with h
      subst h
      exact hmb
  | case4 x h₁ b bs h₃ ih =>
      intro s' h hmb hns
      rw [processFn_eq_block h₁ h₃] at h
      apply ih s' h hmb
      intro i hi
      apply hns
      rw [h₁, h₃]
      simpa using hi

/-- If the cache is empty and some sandboxing site remains, the loop
creates exactly the `memBaseLoad` of some fresh id. -/
theorem processFn_memBase_created {W : Nat} (s : FnWork) : ∀ (s' : FnWork),
    processFn W s = Except.ok s' → s.memBase = none →
    (∃ inst ∈ s.rest ++ s.restBlocks.flatten, isSandboxSite inst = true) →
    ∃ k, s'.memBase = some (memBaseLoad k) ∧ s.fresh ≤ k ∧ k < s'.fresh := by
  induction s using processFn.induct W with
  | case1 x inst rest h₁ e h₂ =>
      intro s' h _ _
      rw [processFn_eq_err h₁ h₂] at h
      exact Except.noConfusion h
  | case2 x inst rest h₁ w h₂ ih =>
      intro s' h hmb hsite
      rw [processFn_eq_cons h₁ h₂] at h
      by_cases hs : isSandboxSite inst = true
      · obtain ⟨hcreate, hlt⟩ := dispatchInstr_memBase_create hmb hs h₂
        obtain ⟨ihf, _, _, ihmb, _⟩ := processFn_invariants (ofWork w) s' h
        have hlt' : x.fresh < w.fresh := hlt
        have ihf' : w.fresh ≤ s'.fresh := ihf
        exact ⟨x.fresh, ihmb _ hcreate, le_refl _, by omega⟩
      · have hs' : isSandboxSite inst = false := by
          cases hb : isSandboxSite inst
          · rfl
          · exact absurd hb hs
        rcases @dispatchInstr_nonsite W (toWork x inst rest) hs'
          with hid | hid
        · have hw := hid.symm.trans h₂
          injection hw with hw
          subst hw
          apply ih s' h hmb
          obtain ⟨i, hi, hsi⟩ := hsite
          rw [h₁] at hi
          refine ⟨i, ?_, hsi⟩
          rcases (by simpa using hi :
              i = inst ∨ i ∈ rest ∨ i ∈ x.restBlocks.flatten) with rfl | hi' | hi'
          · exact absurd hsi hs
          · exact List.mem_append.mpr (Or.inl hi')
          · exact List.mem_append.mpr (Or.inr hi')
        · rw [hid] at h₂
          exact Except.noConfusion h₂
  | case3 x h₁ h₃ =>
      intro s' h _ hsite
      exfalso
      obtain ⟨i, hi, _⟩ := hsite
      rw [h₁, h₃] at hi
      simp at hi
  | case4 x h₁ b bs h₃ ih =>
      intro s' h hmb hsite
      rw [processFn_eq_block h₁ h₃] at h
      apply ih s' h hmb
      obtain ⟨i, hi, hsi⟩ := hsite
      rw [h₁, h₃] at hi
      exact ⟨i, by simpa using hi, hsi⟩

/-! ### Counting synthesized memory-base loads -/

theorem kind_of_isMemBaseLoad {inst : Instr}
    (h : isMemBaseLoad inst = true) : inst.kind = InstKind.load := by
  unfold isMemBaseLoad at h
  split at h
  · rename_i g t h₁ h₂
    exact h₁
  · exact absurd h (by simp)

theorem memBaseFilter_false {fresh0 : Nat} {inst : Instr}
    (h : inst.id < fresh0 ∨ inst.kind ≠ InstKind.load) :
    (isMemBaseLoad inst && decide (fresh0 ≤ inst.id)) = false := by
  rcases h with hid | hk
  · have hd : decide (fresh0 ≤ inst.id) = false :=
      decide_eq_false (by omega)
    rw [hd, Bool.and_false]
  · have hd : isMemBaseLoad inst = false := by
      cases hb : isMemBaseLoad inst
      · rfl
      · exact absurd (kind_of_isMemBaseLoad hb) hk
    rw [hd, Bool.false_and]

theorem synthMemBaseCount_zero (fresh0 : Nat) (blocks : List Block)
    (h : ∀ inst ∈ blocks.flatten,
      inst.id < fresh0 ∨ inst.kind ≠ InstKind.load) :
    synthMemBaseCount fresh0 blocks = 0 := by
  unfold synthMemBaseCount
  rw [List.length_eq_zero, List.filter_eq_nil_iff]
  intro inst hmem
  simp [memBaseFilter_false (h inst hmem)]

/-! ### What `runOnFunction` guarantees -/

/-- Postcondition of `runOnFunction` run with fresh supply `n`, on a
function whose original instruction ids are below `fresh0 ≤ n`: the fresh
counter grows; every output instruction has its id below the new counter
and is an original (id below `fresh0`) or synthesized (id at least `n`);
with a sandboxing site the output is the entry block led by the single
synthesized memory-base load; without one no memory-base load is
synthesized. -/
theorem runOnFunction_facts (W fresh0 n : Nat) (blocks : List Block)
    (out : List Block) (fr₁ : Nat) (hn : fresh0 ≤ n)
    (h : runOnFunction W n blocks = Except.ok (out, fr₁))
    (hids : ∀ inst ∈ blocks.flatten, inst.id < fresh0) :
    n ≤ fr₁ ∧
    (∀ inst ∈ out.flatten, inst.id < fr₁ ∧ (inst.id < fresh0 ∨ n ≤ inst.id)) ∧
    ((∃ inst ∈ blocks.flatten, isSandboxSite inst = true) →
      synthMemBaseCount fresh0 out = 1 ∧
      ∃ k e r, fresh0 ≤ k ∧ out = (memBaseLoad k :: e) :: r) ∧
    ((∀ inst ∈ blocks.flatten, isSandboxSite inst = false) →
      synthMemBaseCount fresh0 out = 0) := by
  unfold runOnFunction at h
  cases blocks with
  | nil =>
      injection h with h
      injection h with h₁ h₂
      subst h₁
      subst h₂
      refine ⟨le_refl n, ?_, ?_, ?_⟩
      · intro inst hmem
        simp at hmem
      · rintro ⟨inst, hmem, -⟩
        simp at hmem
      · intro hne
        rfl
  | cons b bs =>
      dsimp only at h
      cases hp : processFn W
          { doneBlocks := []
            doneCur := []
            rest := b
            restBlocks := bs
            memBase := none
            fresh := n } with
      | error e =>
          rw [hp] at h
          exact Except.noConfusion h
      | ok s' =>
          rw [hp] at h
          dsimp only at h
          obtain ⟨hfr, hrest, hrb, _, htr⟩ := processFn_invariants _ s' hp
          have hfr' : n ≤ s'.fresh := hfr
          have hi0 : FnWork.instrs
              { doneBlocks := []
                doneCur := []
                rest := b
                restBlocks := bs
                memBase := none
                fresh := n } = (b :: bs).flatten := by
            unfold FnWork.instrs
            simp
          have hmem : ∀ inst' ∈ FnWork.instrs s',
              (inst'.id < fresh0 ∧ inst'.id < n) ∨
              (n ≤ inst'.id ∧ inst'.id < s'.fresh ∧
                inst'.kind ≠ InstKind.load) := by
            intro inst' hm
            rcases htr inst' hm with ⟨inst, hmem₀, hid, hk⟩ | ⟨hlo, hhi, hnl⟩
            · left
              have hb₀ := hids inst (by rw [← hi0]; exact hmem₀)
              omega
            · right
              have hlo' : n ≤ inst'.id := hlo
              have hhi' : inst'.id < s'.fresh := hhi
              exact ⟨hlo', hhi', hnl⟩
          have hfin : FnWork.instrs s' =
              s'.doneBlocks.flatten ++ s'.doneCur := by
            unfold FnWork.instrs
            rw [hrest, hrb]
            simp
          have hflat : (s'.doneBlocks ++ [s'.doneCur]).flatten =
              FnWork.instrs s' := by
            rw [hfin]
            simp
          cases hmb : s'.memBase with
          | none =>
              rw [hmb] at h
              dsimp only at h
              injection h with h
              injection h with h₁ h₂
              subst h₁
              subst h₂
              have hout : (s'.doneBlocks ++ [s'.doneCur]).flatten =
                  FnWork.instrs s' := hflat
              refine ⟨hfr', ?_, ?_, ?_⟩
              · intro inst hm
                rw [hout] at hm
                rcases hmem inst hm with ⟨ha, hb'⟩ | ⟨ha, hb', _⟩
                · exact ⟨by omega, Or.inl ha⟩
                · exact ⟨hb', Or.inr ha⟩
              · intro hsite
                exfalso
                obtain ⟨k, hk, -, -⟩ :=
                  processFn_memBase_created _ s' hp rfl hsite
                rw [hmb] at hk
                exact Option.noConfusion hk
              · intro hns
                apply synthMemBaseCount_zero
                intro inst hm
                rw [hout] at hm
                rcases hmem inst hm with ⟨ha, _⟩ | ⟨_, _, hc⟩
                · exact Or.inl ha
                · exact Or.inr hc
          | some mb =>
              rw [hmb] at h
              dsimp only at h
              have hex : ∃ inst ∈ (b :: bs).flatten,
                  isSandboxSite inst = true := by
                by_contra hc
                push_neg at hc
                have hall : ∀ inst ∈ (b :: bs).flatten,
                    isSandboxSite inst = false := by
                  intro inst hm
                  cases hb' : isSandboxSite inst
                  · rfl
                  · exact absurd hb' (hc inst hm)
                have := processFn_memBase_none _ s' hp rfl hall
                rw [hmb] at this
                exact Option.noConfusion this
              obtain ⟨k, hk, hk₁, hk₂⟩ :=
                processFn_memBase_created _ s' hp rfl hex
              have hk₁' : n ≤ k := hk₁
              rw [hmb] at hk
              injection hk with hk
              subst hk
              cases hdc : s'.doneBlocks ++ [s'.doneCur] with
              | nil => simp at hdc
              | cons e r =>
                  rw [hdc] at h
                  dsimp only at h
                  injection h with h
                  injection h with h₁ h₂
                  subst h₁
                  subst h₂
                  have hout : ((memBaseLoad k :: e) :: r).flatten =
                      memBaseLoad k :: FnWork.instrs s' := by
                    rw [← hflat, hdc]
                    simp
                  refine ⟨hfr', ?_, ?_, ?_⟩
                  · intro inst hm
                    rw [hout] at hm
                    rcases List.mem_cons.mp hm with rfl | hm'
                    · exact ⟨hk₂, Or.inr hk₁'⟩
                    · rcases hmem inst hm' with ⟨ha, hb'⟩ | ⟨ha, hb', _⟩
                      · exact ⟨by omega, Or.inl ha⟩
                      · exact ⟨hb', Or.inr ha⟩
                  · intro _
                    refine ⟨?_, k, e, r, by omega, rfl⟩
                    unfold synthMemBaseCount
                    rw [hout, List.filter_cons]
                    have hhead : (isMemBaseLoad (memBaseLoad k) &&
                        decide (fresh0 ≤ (memBaseLoad k).id)) = true := by
                      rw [isMemBaseLoad_memBaseLoad, Bool.true_and]
                      exact decide_eq_true (by
                        show fresh0 ≤ k
                        omega)
                    rw [hhead]
                    have htail : (FnWork.instrs s').filter
                        (fun inst => isMemBaseLoad inst &&
                          decide (fresh0 ≤ inst.id)) = [] := by
                      rw [List.filter_eq_nil_iff]
                      intro inst hm
                      have hf : (isMemBaseLoad inst &&
                          decide (fresh0 ≤ inst.id)) = false := by
                        apply memBaseFilter_false
                        rcases hmem inst hm with ⟨ha, _⟩ | ⟨_, _, hc⟩
                        · exact Or.inl ha
                        · exact Or.inr hc
                      simp [hf]
                    rw [htail]
                    simp
                  · intro hns
                    exfalso
                    have := processFn_memBase_none _ s' hp rfl hns
                    rw [hmb] at this
                    exact Option.noConfusion this

/-! ### What `runOnModule` guarantees, function by function -/

/-- Postcondition of `runOnModule` started at fresh supply `n ≥ fresh0` on
functions whose original ids are below `fresh0`: lengths agree; output ids
stay below the final counter and avoid the consumed window
`[fresh0, n)`; each output function has exactly one synthesized
memory-base load (leading its entry block) when it has a sandboxing site
and none otherwise; and a synthesized instruction of one function never
occurs in a later function. -/
theorem runOnModule_facts (W fresh0 : Nat) (fns : List (List Block)) :
    ∀ (n : Nat) (outs : List (List Block)) (fr' : Nat), fresh0 ≤ n →
    runOnModule W n fns = Except.ok (outs, fr') →
    (∀ f ∈ fns, ∀ inst ∈ f.flatten, inst.id < fresh0) →
    n ≤ fr' ∧ outs.length = fns.length ∧
    (∀ f ∈ outs, ∀ inst ∈ f.flatten,
      inst.id < fr' ∧ (inst.id < fresh0 ∨ n ≤ inst.id)) ∧
    (∀ i (hf : i < fns.length) (ho : i < outs.length),
      ((∃ inst ∈ (fns.get ⟨i, hf⟩).flatten, isSandboxSite inst = true) →
        synthMemBaseCount fresh0 (outs.get ⟨i, ho⟩) = 1 ∧
        ∃ k e r, fresh0 ≤ k ∧
          outs.get ⟨i, ho⟩ = (memBaseLoad k :: e) :: r) ∧
      ((∀ inst ∈ (fns.get ⟨i, hf⟩).flatten, isSandboxSite inst = false) →
        synthMemBaseCount fresh0 (outs.get ⟨i, ho⟩) = 0)) ∧
    (∀ i j (hi : i < outs.length) (hj : j < outs.length), i < j →
      ∀ inst, fresh0 ≤ inst.id →
        inst ∈ (outs.get ⟨i, hi⟩).flatten →
          inst ∉ (outs.get ⟨j, hj⟩).flatten) := by
  induction fns with
  | nil =>
      intro n outs fr' hn h hids
      unfold runOnModule at h
      injection h with h
      injection h with h₁ h₂
      subst h₁
      subst h₂
      refine ⟨le_refl n, rfl, ?_, ?_, ?_⟩
      · intro f hf
        simp at hf
      · intro i hf
        simp at hf
      · intro i j hi
        simp at hi
  | cons f rest ih =>
      intro n outs fr' hn h hids
      unfold runOnModule at h
      cases hf : runOnFunction W n f with
      | error e =>
          rw [hf] at h
          exact Except.noConfusion h
      | ok p =>
          obtain ⟨f', fr₁⟩ := p
          rw [hf] at h
          dsimp only at h
          cases hm : runOnModule W fr₁ rest with
          | error e =>
              rw [hm] at h
              exact Except.noConfusion h
          | ok q =>
              obtain ⟨rest', fr₂⟩ := q
              rw [hm] at h
              dsimp only at h
              injection h with h
              injection h with h₁ h₂
              subst h₁
              subst h₂
              have hids₁ : ∀ inst ∈ f.flatten, inst.id < fresh0 :=
                hids f (by simp)
              obtain ⟨hfr₁, hidso, hsite₁, hns₁⟩ :=
                runOnFunction_facts W fresh0 n f f' fr₁ hn hf hids₁
              have hn₂ : fresh0 ≤ fr₁ := le_trans hn hfr₁
              obtain ⟨hfr₂, hlen, hidso₂, hper₂, hpair₂⟩ :=
                ih fr₁ rest' fr₂ hn₂ hm (fun g hg => hids g (by simp [hg]))
              refine ⟨le_trans hfr₁ hfr₂, by simp [hlen], ?_, ?_, ?_⟩
              · intro g hg inst hinst
                rcases List.mem_cons.mp hg with rfl | hg'
                · obtain ⟨ha, hb⟩ := hidso inst hinst
                  refine ⟨by omega, ?_⟩
                  rcases hb with hb | hb
                  · exact Or.inl hb
                  · exact Or.inr hb
                · obtain ⟨ha, hb⟩ := hidso₂ g hg' inst hinst
                  refine ⟨ha, ?_⟩
                  rcases hb with hb | hb
                  · exact Or.inl hb
                  · exact Or.inr (by omega)
              · intro i hfi hoi
                cases i with
                | zero => exact ⟨fun hs => hsite₁ hs, fun hs => hns₁ hs⟩
                | succ i =>
                    exact hper₂ i (by simpa using hfi) (by simpa using hoi)
              · intro i j hi hj hij inst hfr0 hmem₁ hmem₂
                cases i with
                | zero =>
                    cases j with
                    | zero => omega
                    | succ j =>
                        obtain ⟨ha, -⟩ := hidso inst hmem₁
                        have hj' : j < rest'.length := by simpa using hj
                        obtain ⟨-, hd⟩ := hidso₂ (rest'.get ⟨j, hj'⟩)
                          (rest'.get_mem j hj') inst hmem₂
                        rcases hd with hd | hd <;> omega
                | succ i =>
                    cases j with
                    | zero => omega
                    | succ j =>
                        exact hpair₂ i j (by simpa using hi)
                          (by simpa using hj) (by omega) inst hfr0
                          hmem₁ hmem₂

/-- **C6**: in a transformed module, every function with at least one
sandboxing site carries exactly one synthesized memory-base load, placed
at the very start of its entry block; a function without sandboxing sites
gets none; a synthesized instruction of one function (the memory-base
load included) never appears in another function; and whenever the
per-function cache already holds the load, `acquireMemBase` returns that
same cached instruction and creates nothing — so every later sandboxing
site of the function reuses the one loaded value. -/
theorem memBase_once_per_function (W fresh0 : Nat)
    (fns outs : List (List Block)) (fr' : Nat)
    (h : runOnModule W fresh0 fns = Except.ok (outs, fr'))
    (hids : ∀ f ∈ fns, ∀ inst ∈ f.flatten, inst.id < fresh0) :
    outs.length = fns.length ∧
    (∀ i (hf : i < fns.length) (ho : i < outs.length),
      ((∃ inst ∈ (fns.get ⟨i, hf⟩).flatten, isSandboxSite inst = true) →
        synthMemBaseCount fresh0 (outs.get ⟨i, ho⟩) = 1 ∧
        ∃ k e r, fresh0 ≤ k ∧
          outs.get ⟨i, ho⟩ = (memBaseLoad k :: e) :: r) ∧
      ((∀ inst ∈ (fns.get ⟨i, hf⟩).flatten, isSandboxSite inst = false) →
        synthMemBaseCount fresh0 (outs.get ⟨i, ho⟩) = 0)) ∧
    (∀ i j (hi : i < outs.length) (hj : j < outs.length), i ≠ j →
      ∀ inst, fresh0 ≤ inst.id →
        inst ∈ (outs.get ⟨i, hi⟩).flatten →
          inst ∉ (outs.get ⟨j, hj⟩).flatten) ∧
    (∀ w mb, w.memBase = some mb → acquireMemBase w = (w, mb)) := by
  obtain ⟨-, hlen, -, hper, hpair⟩ :=
    runOnModule_facts W fresh0 fns fresh0 outs fr' (le_refl _) h hids
  refine ⟨hlen, hper, ?_, ?_⟩
  · intro i j hi hj hne inst hfr0 hmi hmj
    rcases Nat.lt_or_ge i j with hij | hij
    · exact hpair i j hi hj hij inst hfr0 hmi hmj
    · have hij' : j < i := by omega
      exact hpair j i hj hi hij' inst hfr0 hmj hmi
  · intro w mb hmb
    exact acquireMemBase_of_some hmb

/-! ### A concrete two-function module for C6 -/

def c6Store : Instr :=
  { id := 1, kind := InstKind.store,
    ops := [Value.constInt 32 7, Value.arg 0 (Ty.ptr (Ty.int 32))],
    ty := Ty.void }

def c6Add : Instr :=
  { id := 2, kind := InstKind.add,
    ops := [Value.constInt 32 1, Value.constInt 32 2], ty := Ty.int 32 }

def c6Fns : List (List Block) := [[[c6Store]], [[c6Add]]]

def c6S0 : FnWork :=
  { doneBlocks := [], doneCur := [], rest := [c6Store], restBlocks := [],
    memBase := none, fresh := 100 }

def c6W1 : Work := sandboxPtrOperand 32 1 true (toWork c6S0 c6Store [])

def c6S1 : FnWork := ofWork c6W1

def c6T0 : FnWork :=
  { doneBlocks := [], doneCur := [], rest := [c6Add], restBlocks := [],
    memBase := none, fresh := 105 }

def c6T1 : FnWork := ofWork (toWork c6T0 c6Add [])

def c6Out1 : List Block := [memBaseLoad 100 :: c6S1.doneCur]

def c6Outs : List (List Block) := [c6Out1, [[c6Add]]]

/-- The cons step of `runOnModule`, given both sub-results. -/
theorem runOnModule_cons {W n : Nat} {f : List Block}
    {rest : List (List Block)} {f' : List Block} {fr₁ : Nat}
    {rest' : List (List Block)} {fr₂ : Nat}
    (h₁ : runOnFunction W n f = Except.ok (f', fr₁))
    (h₂ : runOnModule W fr₁ rest = Except.ok (rest', fr₂)) :
    runOnModule W n (f :: rest) = Except.ok (f' :: rest', fr₂) := by
  unfold runOnModule
  rw [h₁]
  dsimp only
  rw [h₂]

/-- `runOnFunction` in terms of the driver-loop result. -/
theorem runOnFunction_of_processFn {W n : Nat} {b : Block} {bs : List Block}
    {s' : FnWork}
    (hp : processFn W
      { doneBlocks := [], doneCur := [], rest := b, restBlocks := bs,
        memBase := none, fresh := n } = Except.ok s') :
    runOnFunction W n (b :: bs) =
      match s'.memBase with
      | some mb =>
        (match s'.doneBlocks ++ [s'.doneCur] with
         | e :: r => Except.ok ((mb :: e) :: r, s'.fresh)
         | [] => Except.ok ([[mb]], s'.fresh))
      | none => Except.ok (s'.doneBlocks ++ [s'.doneCur], s'.fresh) := by
  unfold runOnFunction
  dsimp only
  rw [hp]

theorem c6ProcessFn₁ : processFn 32 c6S0 = Except.ok c6S1 := by
  rw [processFn_eq_cons (show c6S0.rest = c6Store :: [] from rfl)
    (show dispatchInstr 32 (toWork c6S0 c6Store []) = Except.ok c6W1
      from rfl)]
  exact processFn_eq_nil rfl rfl

theorem c6ProcessFn₂ : processFn 32 c6T0 = Except.ok c6T1 := by
  rw [processFn_eq_cons (show c6T0.rest = c6Add :: [] from rfl)
    (show dispatchInstr 32 (toWork c6T0 c6Add []) =
      Except.ok (toWork c6T0 c6Add []) from rfl)]
  exact processFn_eq_nil rfl rfl

theorem c6Run : runOnModule 32 100 c6Fns = Except.ok (c6Outs, 105) := by
  have e₁ : runOnFunction 32 100 [[c6Store]] = Except.ok (c6Out1, 105) := by
    rw [runOnFunction_of_processFn c6ProcessFn₁]
    rfl
  have e₂ : runOnFunction 32 105 [[c6Add]] = Except.ok ([[c6Add]], 105) := by
    rw [runOnFunction_of_processFn c6ProcessFn₂]
    rfl
  have e₃ : runOnModule 32 105 ([[[c6Add]]] : List (List Block)) =
      Except.ok ([[[c6Add]]], 105) := by
    have e₀ : runOnModule 32 105 ([] : List (List Block)) =
        Except.ok ([], 105) := rfl
    exact runOnModule_cons e₂ e₀
  exact runOnModule_cons e₁ e₃

/-- Witness for C6: on the concrete two-function module, the store
function gets exactly one memory-base load, leading its entry block, and
the site-free function gets none. -/
theorem memBase_once_per_function_witness :
    (∀ f ∈ c6Fns, ∀ inst ∈ f.flatten, inst.id < 100) ∧
    c6Outs.length = c6Fns.length ∧
    (synthMemBaseCount 100 (c6Outs.get ⟨0, by decide⟩) = 1 ∧
      ∃ k e r, 100 ≤ k ∧
        c6Outs.get ⟨0, by decide⟩ = (memBaseLoad k :: e) :: r) ∧
    synthMemBaseCount 100 (c6Outs.get ⟨1, by decide⟩) = 0 :=
  ⟨by decide,
   (memBase_once_per_function 32 100 c6Fns c6Outs 105 c6Run (by decide)).1,
   ((memBase_once_per_function 32 100 c6Fns c6Outs 105 c6Run
      (by decide)).2.1 0 (by decide) (by decide)).1 (by decide),
   ((memBase_once_per_function 32 100 c6Fns c6Outs 105 c6Run
      (by decide)).2.1 1 (by decide) (by decide)).2 (by decide)⟩

end MinSFI
